import Mathlib

/-!
Verification of core LizardFS master metadata and client chunk-writer logic
against a shallow Lean embedding of the repository's C++ sources:

* `src/master/quota_database.cc`      — quota limits/usage database
* `src/master/filesystem_operations.cc` — unlink/rename/acquire/release/
  writechunk and the changelog `apply_` handlers
* `src/mount/chunk_writer.cc`         — write-operation scheduling and
  read-before-write source selection

C++ `uint32_t`/`uint64_t` values are modelled as `Nat`; the places where
overflow can matter take an explicit bound (`MAX_INDEX`).  Functions whose
definitions are outside the embedded translation units are either modelled
from the specification (marked `Modelled from the spec:`) or taken as
explicit function parameters.
-/

set_option maxHeartbeats 1000000
set_option linter.unusedVariables false

namespace LizardFS

/-! ### Protocol status codes (§7 of the spec, `common/lizardfs_error_codes.h`) -/

inductive LizStatus where
  | STATUS_OK
  | ERROR_EPERM
  | ERROR_ENOTDIR
  | ERROR_ENOENT
  | ERROR_EACCES
  | ERROR_EEXIST
  | ERROR_EINVAL
  | ERROR_ENOTEMPTY
  | ERROR_EROFS
  | ERROR_QUOTA
  | ERROR_INDEXTOOBIG
  | ERROR_NOCHUNK
  | ERROR_MISMATCH
  | ERROR_WAITING
  deriving DecidableEq, Repr

/-! ### Quota database (`src/master/quota_database.cc`) -/

inductive QuotaRigor where
  | kSoft
  | kHard
  deriving DecidableEq, Repr

inductive QuotaResource where
  | kInodes
  | kSize
  deriving DecidableEq, Repr

inductive QuotaOwnerType where
  | kUser
  | kGroup
  deriving DecidableEq, Repr

/-- The `QuotaLimits` record: four limits and two usage counters. -/
structure QuotaLimits where
  inodesSoftLimit : Nat := 0
  inodesHardLimit : Nat := 0
  bytesSoftLimit : Nat := 0
  bytesHardLimit : Nat := 0
  inodes : Nat := 0
  bytes : Nat := 0
  deriving DecidableEq, Repr

/-- `std::unordered_map<uint32_t, QuotaLimits>` modelled as an association list. -/
abbrev DataTable := List (Nat × QuotaLimits)

/-- Lookup of `map.find(ownerId)` (first matching key). -/
def DataTable.findEntry (data : DataTable) (ownerId : Nat) : Option QuotaLimits :=
  match data.find? (fun e => e.1 == ownerId) with
  | some e => some e.2
  | none => none

/-- `map[ownerId]` mutated through `f`: update in place when the key exists,
otherwise insert a default-constructed `QuotaLimits` first (C++ `operator[]`). -/
def DataTable.setAt (data : DataTable) (ownerId : Nat) (f : QuotaLimits → QuotaLimits) :
    DataTable :=
  if data.any (fun e => e.1 == ownerId) then
    data.map (fun e => if e.1 == ownerId then (e.1, f e.2) else e)
  else
    data ++ [(ownerId, f {})]

/-- `QuotaDatabaseImplementation::extractLimit` (read access). -/
def extractLimit (limits : QuotaLimits) (rigor : QuotaRigor) (resource : QuotaResource) : Nat :=
  match rigor, resource with
  | .kSoft, .kInodes => limits.inodesSoftLimit
  | .kHard, .kInodes => limits.inodesHardLimit
  | .kSoft, .kSize => limits.bytesSoftLimit
  | .kHard, .kSize => limits.bytesHardLimit

/-- `extractLimit` used as an lvalue: assignment to the selected field. -/
def assignLimit (limits : QuotaLimits) (rigor : QuotaRigor) (resource : QuotaResource)
    (value : Nat) : QuotaLimits :=
  match rigor, resource with
  | .kSoft, .kInodes => { limits with inodesSoftLimit := value }
  | .kHard, .kInodes => { limits with inodesHardLimit := value }
  | .kSoft, .kSize => { limits with bytesSoftLimit := value }
  | .kHard, .kSize => { limits with bytesHardLimit := value }

/-- `QuotaDatabaseImplementation::extractUsage` (read access). -/
def extractUsage (limits : QuotaLimits) (resource : QuotaResource) : Nat :=
  match resource with
  | .kInodes => limits.inodes
  | .kSize => limits.bytes

/-- `extractUsage` used as an lvalue: `+= delta` with `uint64_t` wraparound. -/
def addUsage (limits : QuotaLimits) (resource : QuotaResource) (delta : Int) : QuotaLimits :=
  match resource with
  | .kInodes => { limits with inodes := (((limits.inodes : Int) + delta) % (2 ^ 64 : Int)).toNat }
  | .kSize => { limits with bytes := (((limits.bytes : Int) + delta) % (2 ^ 64 : Int)).toNat }

/-- The quota database state: the `uidData` and `gidData` tables. -/
structure QuotaDatabase where
  uidData : DataTable := []
  gidData : DataTable := []
  deriving DecidableEq

/-- Table selection done by `getLimits` / `getLimitsOrNull`. -/
def QuotaDatabase.table (db : QuotaDatabase) (ownerType : QuotaOwnerType) : DataTable :=
  match ownerType with
  | .kUser => db.uidData
  | .kGroup => db.gidData

/-- Write the selected table back. -/
def QuotaDatabase.withTable (db : QuotaDatabase) (ownerType : QuotaOwnerType)
    (data : DataTable) : QuotaDatabase :=
  match ownerType with
  | .kUser => { db with uidData := data }
  | .kGroup => { db with gidData := data }

/-- `QuotaDatabase::set`. -/
def QuotaDatabase.set (db : QuotaDatabase) (rigor : QuotaRigor) (resource : QuotaResource)
    (ownerType : QuotaOwnerType) (ownerId : Nat) (value : Nat) : QuotaDatabase :=
  db.withTable ownerType
    ((db.table ownerType).setAt ownerId (fun l => assignLimit l rigor resource value))

/-- `QuotaDatabase::remove`: delegates to `set` with value `0`. -/
def QuotaDatabase.remove (db : QuotaDatabase) (rigor : QuotaRigor) (resource : QuotaResource)
    (ownerType : QuotaOwnerType) (ownerId : Nat) : QuotaDatabase :=
  db.set rigor resource ownerType ownerId 0

/-- `QuotaDatabaseImplementation::isLimitExceeded`. -/
def QuotaDatabase.isLimitExceeded (db : QuotaDatabase) (rigor : QuotaRigor)
    (resource : QuotaResource) (ownerType : QuotaOwnerType) (ownerId : Nat) : Bool :=
  match (db.table ownerType).findEntry ownerId with
  | none => false
  | some limits =>
    let limit := extractLimit limits rigor resource
    let usage := extractUsage limits resource
    let usage := if rigor = .kHard then usage + 1 else usage
    limit != 0 && usage > limit

/-- `QuotaDatabase::isExceeded`: the user entry of `uid` or the group entry of `gid`. -/
def QuotaDatabase.isExceeded (db : QuotaDatabase) (rigor : QuotaRigor)
    (resource : QuotaResource) (uid gid : Nat) : Bool :=
  db.isLimitExceeded rigor resource .kUser uid || db.isLimitExceeded rigor resource .kGroup gid

/-- Owner key of a quota entry. -/
structure QuotaOwner where
  ownerType : QuotaOwnerType
  ownerId : Nat
  deriving DecidableEq, Repr

/-- `QuotaEntryKey`. -/
structure QuotaEntryKey where
  owner : QuotaOwner
  rigor : QuotaRigor
  resource : QuotaResource
  deriving DecidableEq, Repr

/-- `QuotaEntry`. -/
structure QuotaEntry where
  entryKey : QuotaEntryKey
  limit : Nat
  deriving DecidableEq, Repr

/-- `QuotaDatabaseImplementation::getEntries` over one table: all non-empty
limits, iterating rigor then resource per table entry. -/
def getEntriesTable (data : DataTable) (ownerType : QuotaOwnerType) : List QuotaEntry :=
  data.flatMap (fun dataEntry =>
    [QuotaRigor.kSoft, QuotaRigor.kHard].flatMap (fun rigor =>
      [QuotaResource.kInodes, QuotaResource.kSize].filterMap (fun resource =>
        let limit := extractLimit dataEntry.2 rigor resource
        if limit > 0 then
          some { entryKey := { owner := { ownerType := ownerType, ownerId := dataEntry.1 },
                               rigor := rigor, resource := resource },
                 limit := limit }
        else none)))

/-- `QuotaDatabase::getEntries`: uid table then gid table. -/
def QuotaDatabase.getEntries (db : QuotaDatabase) : List QuotaEntry :=
  getEntriesTable db.uidData .kUser ++ getEntriesTable db.gidData .kGroup

/-- `QuotaDatabase::changeUsage`: add `delta` to the usage counters of `uid` and `gid`. -/
def QuotaDatabase.changeUsage (db : QuotaDatabase) (resource : QuotaResource)
    (uid gid : Nat) (delta : Int) : QuotaDatabase :=
  let db := db.withTable .kUser (db.uidData.setAt uid (fun l => addUsage l resource delta))
  db.withTable .kGroup (db.gidData.setAt gid (fun l => addUsage l resource delta))

/-! ### Master metadata graph (`src/master/filesystem_operations.cc`) -/

def SPECIAL_INODE_ROOT : Nat := 1
def SESFLAG_READONLY : Nat := 1
def MODE_MASK_EMPTY : Nat := 0
def MODE_MASK_W : Nat := 2

/-- The maximum chunk index accepted by `fs_readchunk` / `fs_writechunk`
(`MAX_INDEX`, defined outside the embedded sources; its value only needs to
keep `uint32_t` index arithmetic exact). -/
def MAX_INDEX : Nat := 0x7FFFFFFF

/-- `FSNode` type tags. -/
inductive NodeType where
  | kFile
  | kDirectory
  | kSymlink
  | kFifo
  | kBlockDev
  | kCharDev
  | kSocket
  | kTrash
  | kReserved
  deriving DecidableEq, Repr

/-- Aggregated directory statistics (`statsrecord`). -/
structure statsrecord where
  inodes : Nat := 0
  dirs : Nat := 0
  files : Nat := 0
  chunks : Nat := 0
  length : Nat := 0
  size : Nat := 0
  realsize : Nat := 0
  deriving DecidableEq, Repr

/-- `uint64_t x += int64_t d` with wraparound. -/
def addWrap64 (x : Nat) (d : Int) : Nat := (((x : Int) + d) % (2 ^ 64 : Int)).toNat

/-- `statsrecord` field updated by `+ new - old` (used by stats propagation). -/
def addSub64 (a n p : Nat) : Nat := addWrap64 a ((n : Int) - (p : Int))

/-- An inode record.  The C++ code uses subclasses (`FSNodeDirectory`,
`FSNodeFile`, ...); the embedding flattens them into one record whose
directory fields (`entries`, `stats`) and file fields (`length`, `chunks`,
`sessionid`) are meaningful according to `type`. -/
structure FSNode where
  id : Nat
  type : NodeType
  mode : Nat := 0
  uid : Nat := 0
  gid : Nat := 0
  atime : Nat := 0
  mtime : Nat := 0
  ctime : Nat := 0
  goal : Nat := 0
  trashtime : Nat := 0
  parent : List Nat := []
  entries : List (String × Nat) := []
  stats : statsrecord := {}
  length : Nat := 0
  chunks : List Nat := []
  sessionid : List Nat := []
  deriving DecidableEq, Repr

/-- The master metadata (the parts of `gMetadata` the embedded operations touch). -/
structure Metadata where
  nodes : List (Nat × FSNode) := []
  metaversion : Nat := 0
  nextsessionid : Nat := 1
  nextchunkid : Nat := 1
  quota_database : QuotaDatabase := {}
  deriving DecidableEq

/-- `fsnodes_id_to_node`. -/
def fsnodes_id_to_node (st : Metadata) (id : Nat) : Option FSNode :=
  match st.nodes.find? (fun e => e.1 == id) with
  | some e => some e.2
  | none => none

/-- Store a node back under its id. -/
def Metadata.setNode (st : Metadata) (id : Nat) (n : FSNode) : Metadata :=
  { st with nodes := st.nodes.map (fun e => if e.1 == id then (e.1, n) else e) }

/-- Delete a node from the table. -/
def Metadata.eraseNode (st : Metadata) (id : Nat) : Metadata :=
  { st with nodes := st.nodes.filter (fun e => e.1 != id) }

/-- `fsnodes_lookup`: resolve `name` inside a directory node. -/
def fsnodes_lookup (st : Metadata) (wd : FSNode) (name : String) : Option FSNode :=
  match wd.entries.find? (fun e => e.1 == name) with
  | some e => fsnodes_id_to_node st e.2
  | none => none

/-- Modelled from the spec: `fsnodes_namecheck` (defined in
`master/filesystem_node.cc`, not among the embedded sources).  §3 requires
directory-entry names to be non-empty byte strings without `/` and without
null bytes; `true` stands for the C++ result `≥ 0`. -/
def fsnodes_namecheck (name : String) : Bool :=
  name ≠ "" && name.data.all (fun c => c ≠ '/' && c.toNat ≠ 0)

/-- Server personality (master or shadow/metarestore). -/
inductive Personality where
  | kMaster
  | kShadow
  deriving DecidableEq, Repr

/-- The parts of `FsContext` the embedded operations read. -/
structure FsContext where
  personality : Personality
  ts : Nat := 0
  uid : Nat := 0
  gid : Nat := 0
  sesflags : Nat := 0
  canCheckPermissions : Bool := true
  deriving DecidableEq, Repr

def FsContext.isPersonalityMaster (c : FsContext) : Bool := c.personality = .kMaster
def FsContext.isPersonalityShadow (c : FsContext) : Bool := c.personality = .kShadow

/-- Helper functions called by the embedded operations whose definitions live
outside the embedded translation units (permission logic, quota aggregation,
session validation, chunk-level size computation).  They are taken as explicit
parameters: the claims under verification do not depend on their bodies. -/
structure FsEnv where
  verify_session : FsContext → LizStatus
  fsnodes_access : FSNode → Nat → Nat → Nat → Nat → Bool
  fsnodes_sticky_access : FSNode → FSNode → Nat → Bool
  fsnodes_isancestor_or_node_reserved_or_trash : FSNode → FSNode → Bool
  fsnodes_quota_exceeded_dir : FSNode → FSNode → Int → Int → Bool
  fsnodes_get_size : FSNode → Nat
  fsnodes_quota_exceeded : FSNode → Bool
  fsnodes_get_stats : FSNode → statsrecord

/-- Modelled from the spec: `fs_changelog` (defined in `master/filesystem.cc`,
not among the embedded sources) appends one changelog record; §4.8 makes the
record's metaversion the pre-increment value, so logging increments the global
metadata version.  The record text itself is not modelled. -/
def fs_changelog (st : Metadata) : Metadata :=
  { st with metaversion := st.metaversion + 1 }

/-- Modelled from the spec: `fsnodes_remove_edge` (in
`master/filesystem_node.cc`, not among the embedded sources) detaches the
directory edge `(wd, name) → child` and drops the back reference; per §9 the
graph is an arena of inodes where edges are entries of the parent and
back-references are parent-id lists on the child.  Stats/quota propagation to
ancestors is not needed by the claims and is elided. -/
def fsnodes_remove_edge (ts : Nat) (st : Metadata) (wdId : Nat) (name : String)
    (childId : Nat) : Metadata :=
  let st :=
    match fsnodes_id_to_node st wdId with
    | some wd => st.setNode wdId
        { wd with entries := wd.entries.filter (fun e => e.1 != name), mtime := ts, ctime := ts }
    | none => st
  match fsnodes_id_to_node st childId with
  | some c => st.setNode childId { c with parent := c.parent.erase wdId, ctime := ts }
  | none => st

/-- Modelled from the spec: `fsnodes_link` attaches `child` under `(wd, name)`
and records the back reference. -/
def fsnodes_link (ts : Nat) (st : Metadata) (wdId : Nat) (childId : Nat)
    (name : String) : Metadata :=
  let st :=
    match fsnodes_id_to_node st wdId with
    | some wd => st.setNode wdId
        { wd with entries := wd.entries ++ [(name, childId)], mtime := ts, ctime := ts }
    | none => st
  match fsnodes_id_to_node st childId with
  | some c => st.setNode childId { c with parent := c.parent ++ [wdId], ctime := ts }
  | none => st

/-- Modelled from the spec: `fsnodes_purge` destroys a node (I5: Trash and
Reserved inodes are purged; chunk dereferencing is outside the model). -/
def fsnodes_purge (ts : Nat) (st : Metadata) (nodeId : Nat) : Metadata :=
  st.eraseNode nodeId

/-- Modelled from the spec: `fsnodes_unlink` (in `master/filesystem_node.cc`,
not among the embedded sources).  §4.5 unlink row and I5: the edge is removed,
then, when the child has no remaining parent, a file with open sessions
becomes Reserved, else a file with positive trashtime becomes Trash, else the
node is purged. -/
def fsnodes_unlink (ts : Nat) (st : Metadata) (wdId : Nat) (name : String)
    (childId : Nat) : Metadata :=
  let st := fsnodes_remove_edge ts st wdId name childId
  match fsnodes_id_to_node st childId with
  | none => st
  | some child =>
    if child.parent.isEmpty then
      if child.type = .kFile ∧ child.sessionid ≠ [] then
        st.setNode childId { child with type := .kReserved }
      else if child.type = .kFile ∧ child.trashtime > 0 then
        st.setNode childId { child with type := .kTrash }
      else
        fsnodes_purge ts st childId
    else st

/-- `fsnodes_update_checksum`: the running-checksum refresh has no observable
effect on the modelled state. -/
def fsnodes_update_checksum (st : Metadata) : Metadata := st

/-- `fs_unlink` (`filesystem_operations.cc:1212`). -/
def fs_unlink (env : FsEnv) (ts : Nat) (st : Metadata) (rootinode sesflags : Nat)
    (parent : Nat) (name : String) (uid gid : Nat) : LizStatus × Metadata :=
  if sesflags &&& SESFLAG_READONLY ≠ 0 then (.ERROR_EROFS, st) else
  let wdRes : Except LizStatus (Nat × FSNode) :=
    if rootinode = SPECIAL_INODE_ROOT then
      match fsnodes_id_to_node st parent with
      | none => .error .ERROR_ENOENT
      | some wd => .ok (parent, wd)
    else
      match fsnodes_id_to_node st rootinode with
      | none => .error .ERROR_ENOENT
      | some rn =>
        if rn.type ≠ .kDirectory then .error .ERROR_ENOENT
        else if parent = SPECIAL_INODE_ROOT then .ok (rootinode, rn)
        else
          match fsnodes_id_to_node st parent with
          | none => .error .ERROR_ENOENT
          | some wd =>
            if env.fsnodes_isancestor_or_node_reserved_or_trash rn wd then .ok (parent, wd)
            else .error .ERROR_EPERM
  match wdRes with
  | .error s => (s, st)
  | .ok (parentId, wd) =>
    if wd.type ≠ .kDirectory then (.ERROR_ENOTDIR, st)
    else if ¬ env.fsnodes_access wd uid gid MODE_MASK_W sesflags then (.ERROR_EACCES, st)
    else if ¬ fsnodes_namecheck name then (.ERROR_EINVAL, st)
    else
      match fsnodes_lookup st wd name with
      | none => (.ERROR_ENOENT, st)
      | some child =>
        if ¬ env.fsnodes_sticky_access wd child uid then (.ERROR_EPERM, st)
        else if child.type = .kDirectory then (.ERROR_EPERM, st)
        else
          let st := fs_changelog st
          (.STATUS_OK, fsnodes_unlink ts st parentId name child.id)

/-- `fs_apply_unlink` (`filesystem_operations.cc:1330`). -/
def fs_apply_unlink (ts : Nat) (st : Metadata) (parent : Nat) (name : String)
    (inode : Nat) : LizStatus × Metadata :=
  match fsnodes_id_to_node st parent with
  | none => (.ERROR_ENOENT, st)
  | some wd =>
    if wd.type ≠ .kDirectory then (.ERROR_ENOTDIR, st)
    else
      match fsnodes_lookup st wd name with
      | none => (.ERROR_ENOENT, st)
      | some child =>
        if child.id ≠ inode then (.ERROR_MISMATCH, st)
        else if child.type = .kDirectory ∧ child.entries ≠ [] then (.ERROR_ENOTEMPTY, st)
        else
          let st := fsnodes_unlink ts st parent name child.id
          (.STATUS_OK, { st with metaversion := st.metaversion + 1 })

/-- `fs_acquire` (`filesystem_operations.cc:1960`).  The shadow-side
`matoclserv_add_open_file` bookkeeping is outside the metadata state. -/
def fs_acquire (context : FsContext) (st : Metadata) (inode sessionid : Nat) :
    LizStatus × Metadata :=
  match fsnodes_id_to_node st inode with
  | none => (.ERROR_ENOENT, st)
  | some p =>
    if p.type ≠ .kFile ∧ p.type ≠ .kTrash ∧ p.type ≠ .kReserved then (.ERROR_EPERM, st)
    else if sessionid ∈ p.sessionid then (.ERROR_EINVAL, st)
    else
      let st := st.setNode inode { p with sessionid := p.sessionid ++ [sessionid] }
      if context.isPersonalityMaster then (.STATUS_OK, fs_changelog st)
      else (.STATUS_OK, { st with metaversion := st.metaversion + 1 })

/-- `fs_release` (`filesystem_operations.cc:1987`). -/
def fs_release (context : FsContext) (st : Metadata) (inode sessionid : Nat) :
    LizStatus × Metadata :=
  match fsnodes_id_to_node st inode with
  | none => (.ERROR_ENOENT, st)
  | some p =>
    if p.type ≠ .kFile ∧ p.type ≠ .kTrash ∧ p.type ≠ .kReserved then (.ERROR_EPERM, st)
    else if sessionid ∈ p.sessionid then
      let remaining := p.sessionid.erase sessionid
      let st :=
        if p.type = .kReserved ∧ remaining = [] then
          fsnodes_purge context.ts st inode
        else
          fsnodes_update_checksum (st.setNode inode { p with sessionid := remaining })
      if context.isPersonalityMaster then (.STATUS_OK, fs_changelog st)
      else (.STATUS_OK, { st with metaversion := st.metaversion + 1 })
    else (.ERROR_EINVAL, st)

/-- `fs_newsessionid` (`filesystem_operations.cc:2023`): master only; logs a
SESSION record and returns the post-incremented counter's previous value. -/
def fs_newsessionid (st : Metadata) : Nat × Metadata :=
  let st := fs_changelog st
  (st.nextsessionid, { st with nextsessionid := st.nextsessionid + 1 })

/-- `fs_apply_session` (`filesystem_operations.cc:2030`). -/
def fs_apply_session (st : Metadata) (sessionid : Nat) : LizStatus × Metadata :=
  if sessionid ≠ st.nextsessionid then (.ERROR_MISMATCH, st)
  else (.STATUS_OK, { st with metaversion := st.metaversion + 1,
                              nextsessionid := st.nextsessionid + 1 })

/-- Expected node kinds of `fsnodes_get_node_for_operation`. -/
inductive ExpectedNodeType where
  | kDirectory
  | kNotDirectory
  | kFile
  | kAny
  deriving DecidableEq, Repr

/-- Modelled from the spec: `fsnodes_get_node_for_operation` (in
`master/filesystem_checksum_background_updater.cc`-adjacent helpers, not among
the embedded sources) resolves an inode for an operation: ENOENT when the id is
unknown, ENOTDIR when a directory was expected, EPERM when a file-like node was
expected, EACCES when the permission check fails (§4.5 lookup row, §7). -/
def fsnodes_get_node_for_operation (env : FsEnv) (context : FsContext) (st : Metadata)
    (expected : ExpectedNodeType) (modemask : Nat) (id : Nat) : Except LizStatus FSNode :=
  match fsnodes_id_to_node st id with
  | none => .error .ERROR_ENOENT
  | some n =>
    if expected = .kDirectory ∧ n.type ≠ .kDirectory then .error .ERROR_ENOTDIR
    else if expected = .kNotDirectory ∧ n.type = .kDirectory then .error .ERROR_EPERM
    else if expected = .kFile ∧ n.type ≠ .kFile ∧ n.type ≠ .kTrash ∧ n.type ≠ .kReserved then
      .error .ERROR_EPERM
    else if context.canCheckPermissions ∧ modemask ≠ MODE_MASK_EMPTY ∧
        ¬ env.fsnodes_access n context.uid context.gid modemask context.sesflags then
      .error .ERROR_EACCES
    else .ok n

/-- Fuel-bounded parent-chain walk used by `fsnodes_isancestor`. -/
def isancestorFuel (st : Metadata) : Nat → Nat → Nat → Bool
  | 0, fId, pId => fId == pId
  | fuel + 1, fId, pId =>
    if fId == pId then true
    else
      match fsnodes_id_to_node st pId with
      | none => false
      | some p =>
        match p.parent with
        | [] => false
        | q :: _ => isancestorFuel st fuel fId q

/-- Modelled from the spec: `fsnodes_isancestor(f, p)` (in
`master/filesystem_node.cc`, not among the embedded sources) decides whether
directory `f` is `p` itself or an ancestor of `p` by directory edges; S5 makes
renaming `/x/y` below itself fail, so the node itself counts.  A directory has
at most one parent (§3); the fuel bound of the table size keeps the walk total
on arbitrary states. -/
def fsnodes_isancestor (st : Metadata) (f : FSNode) (p : FSNode) : Bool :=
  isancestorFuel st (st.nodes.length + 1) f.id p.id

/-- `fs_rename` (`filesystem_operations.cc:1355`).  Returns the status, the
state, and the value left in the inout `*inode`. -/
def fs_rename (env : FsEnv) (context : FsContext) (st : Metadata)
    (parent_src : Nat) (name_src : String) (parent_dst : Nat) (name_dst : String)
    (inode : Nat) : LizStatus × Metadata × Nat :=
  if env.verify_session context ≠ .STATUS_OK then (env.verify_session context, st, inode) else
  match fsnodes_get_node_for_operation env context st .kDirectory MODE_MASK_W parent_dst with
  | .error s => (s, st, inode)
  | .ok dwd =>
  match fsnodes_get_node_for_operation env context st .kDirectory MODE_MASK_W parent_src with
  | .error s => (s, st, inode)
  | .ok swd =>
  if ¬ fsnodes_namecheck name_src then (.ERROR_EINVAL, st, inode) else
  match fsnodes_lookup st swd name_src with
  | none => (.ERROR_ENOENT, st, inode)
  | some se_child =>
  if context.canCheckPermissions ∧ ¬ env.fsnodes_sticky_access swd se_child context.uid then
    (.ERROR_EPERM, st, inode)
  else if context.personality ≠ .kMaster ∧ se_child.id ≠ inode then
    (.ERROR_MISMATCH, st, inode)
  else
  let inodeOut := se_child.id
  if se_child.type = .kDirectory ∧ fsnodes_isancestor st se_child dwd then
    (.ERROR_EINVAL, st, inodeOut)
  else
  let quota_delta : Int × Int :=
    if se_child.type = .kDirectory then
      ((se_child.stats.inodes : Int), (se_child.stats.size : Int))
    else if se_child.type = .kFile then
      (1, (env.fsnodes_get_size se_child : Int))
    else (1, 1)
  if ¬ fsnodes_namecheck name_dst then (.ERROR_EINVAL, st, inodeOut) else
  let deRes : Except LizStatus (Option FSNode × Int × Int) :=
    match fsnodes_lookup st dwd name_dst with
    | none => .ok (none, quota_delta.1, quota_delta.2)
    | some de_child =>
      if de_child.type = .kDirectory ∧ de_child.entries ≠ [] then .error .ERROR_ENOTEMPTY
      else if context.canCheckPermissions ∧
          ¬ env.fsnodes_sticky_access dwd de_child context.uid then .error .ERROR_EPERM
      else if de_child.type = .kDirectory then
        .ok (some de_child, quota_delta.1 - (de_child.stats.inodes : Int),
             quota_delta.2 - (de_child.stats.size : Int))
      else if de_child.type = .kFile then
        .ok (some de_child, quota_delta.1 - 1,
             quota_delta.2 - (env.fsnodes_get_size de_child : Int))
      else .ok (some de_child, quota_delta.1 - 1, quota_delta.2 - 1)
  match deRes with
  | .error s => (s, st, inodeOut)
  | .ok (deChild, dInodes, dSize) =>
  if env.fsnodes_quota_exceeded_dir dwd swd dInodes dSize then (.ERROR_QUOTA, st, inodeOut) else
  let st :=
    match deChild with
    | some de_child => fsnodes_unlink context.ts st dwd.id name_dst de_child.id
    | none => st
  let st := fsnodes_remove_edge context.ts st swd.id name_src se_child.id
  let st := fsnodes_link context.ts st dwd.id se_child.id name_dst
  let st :=
    if context.isPersonalityMaster then fs_changelog st
    else { st with metaversion := st.metaversion + 1 }
  (.STATUS_OK, st, inodeOut)

/-- Fieldwise `stats += new - old` used by stats propagation. -/
def statsrecord.addSub (s nsr psr : statsrecord) : statsrecord where
  inodes := addSub64 s.inodes nsr.inodes psr.inodes
  dirs := addSub64 s.dirs nsr.dirs psr.dirs
  files := addSub64 s.files nsr.files psr.files
  chunks := addSub64 s.chunks nsr.chunks psr.chunks
  length := addSub64 s.length nsr.length psr.length
  size := addSub64 s.size nsr.size psr.size
  realsize := addSub64 s.realsize nsr.realsize psr.realsize

/-- Modelled from the spec: `fsnodes_add_sub_stats` (in
`master/filesystem_node.cc`, not among the embedded sources) applies the stats
delta `new − old` to a directory and, per I3, to its chain of ancestors (a
directory has at most one parent).  The fuel bound keeps the climb total. -/
def fsnodes_add_sub_stats (st : Metadata) (fuel : Nat) (dirId : Nat)
    (nsr psr : statsrecord) : Metadata :=
  match fuel with
  | 0 => st
  | fuel + 1 =>
    match fsnodes_id_to_node st dirId with
    | none => st
    | some d =>
      let st := st.setNode dirId { d with stats := d.stats.addSub nsr psr }
      match d.parent with
      | [] => st
      | q :: _ => fsnodes_add_sub_stats st fuel q nsr psr

/-- Modelled from the spec: `fsnodes_quota_update` for a `{kSize, delta}` list
(in `master/filesystem_quota.cc`, not among the embedded sources) adds the
delta to the size usage of the node's uid and gid owners (I6). -/
def fsnodes_quota_update (st : Metadata) (p : FSNode) (delta : Int) : Metadata :=
  { st with quota_database := st.quota_database.changeUsage .kSize p.uid p.gid delta }

/-- Modelled from the spec: `chunk_multi_modify` — the master-side chunk
allocator (`master/chunks.cc`, not among the embedded sources).  §4.5
write_chunk row: precondition "quota", effect "ask chunk allocator for a new
version or new id".  With the quota exceeded it refuses with QUOTA; with
`ochunkid = 0` it allocates a fresh chunk id and reports `opflag = 1`;
otherwise it keeps the chunk id and bumps its version (`opflag = 0`).  Chunk
versions and lock ids are not modelled.  Returns (status, opflag, nchunkid,
state). -/
def chunk_multi_modify (st : Metadata) (ochunkid : Nat) (goal : Nat)
    (quota_exceeded : Bool) : LizStatus × Nat × Nat × Metadata :=
  if quota_exceeded then (.ERROR_QUOTA, 0, 0, st)
  else if ochunkid = 0 then
    (.STATUS_OK, 1, st.nextchunkid, { st with nextchunkid := st.nextchunkid + 1 })
  else (.STATUS_OK, 0, ochunkid, st)

/-- Modelled from the spec: `chunk_apply_modification` — the shadow-side chunk
mutation (`master/chunks.cc`, not among the embedded sources).  §4.8: replay
performs the master's mutation, so a fresh id is drawn for `ochunkid = 0` and
the id is kept otherwise.  Returns (status, nchunkid, state). -/
def chunk_apply_modification (ts : Nat) (st : Metadata) (ochunkid lockid goal : Nat)
    (increaseVersion : Bool) : LizStatus × Nat × Metadata :=
  if ochunkid = 0 then
    (.STATUS_OK, st.nextchunkid, { st with nextchunkid := st.nextchunkid + 1 })
  else (.STATUS_OK, ochunkid, st)

/-- Result bundle of `fs_writechunk`: status, state and the inout/out
parameters `*lockid`, `*chunkid`, `*opflag`, `*length`. -/
structure WriteChunkResult where
  status : LizStatus
  st : Metadata
  lockid : Nat
  chunkid : Nat
  opflag : Nat
  length : Nat
  deriving DecidableEq

/-- The `chunks` vector growth of `fs_writechunk` (`filesystem_operations.cc:2124`). -/
def writechunkNewSize (indx : Nat) : Nat :=
  if indx < 8 then indx + 1
  else if indx < 64 then (indx &&& 0xFFFFFFF8) + 8
  else (indx &&& 0xFFFFFFC0) + 64

/-- `fs_writechunk` (`filesystem_operations.cc:2088`). -/
def fs_writechunk (env : FsEnv) (context : FsContext) (st : Metadata)
    (inode indx : Nat) (lockid chunkid opflag lengthIn : Nat) : WriteChunkResult :=
  if env.verify_session context ≠ .STATUS_OK then
    ⟨env.verify_session context, st, lockid, chunkid, opflag, lengthIn⟩ else
  match fsnodes_get_node_for_operation env context st .kFile MODE_MASK_EMPTY inode with
  | .error s => ⟨s, st, lockid, chunkid, opflag, lengthIn⟩
  | .ok p =>
  if indx > MAX_INDEX then ⟨.ERROR_INDEXTOOBIG, st, lockid, chunkid, opflag, lengthIn⟩ else
  let quota_exceeded := env.fsnodes_quota_exceeded p
  let psr := env.fsnodes_get_stats p
  match (if indx ≥ p.chunks.length then
           if context.isPersonalityMaster ∧ quota_exceeded then
             Except.error LizStatus.ERROR_QUOTA
           else
             Except.ok { p with chunks :=
               p.chunks ++ List.replicate (writechunkNewSize indx - p.chunks.length) 0 }
         else Except.ok p) with
  | .error s => ⟨s, st, lockid, chunkid, opflag, lengthIn⟩
  | .ok p =>
  let st := st.setNode inode p
  let ochunkid := p.chunks.getD indx 0
  let modifyRes : LizStatus × Nat × Nat × Metadata :=
    if context.isPersonalityMaster then
      chunk_multi_modify st ochunkid p.goal quota_exceeded
    else
      let increaseVersion := opflag ≠ 0
      let (s, nchunkid, st') := chunk_apply_modification context.ts st ochunkid lockid p.goal
        increaseVersion
      (s, opflag, nchunkid, st')
  match modifyRes with
  | (status, opflagOut, nchunkid, st) =>
  if status ≠ .STATUS_OK then
    ⟨status, fsnodes_update_checksum st, lockid, chunkid, opflag, lengthIn⟩ else
  if context.isPersonalityShadow ∧ nchunkid ≠ chunkid then
    ⟨.ERROR_MISMATCH, fsnodes_update_checksum st, lockid, chunkid, opflag, lengthIn⟩ else
  let p := { p with chunks := p.chunks.set indx nchunkid }
  let st := st.setNode inode p
  let nsr := env.fsnodes_get_stats p
  let st := p.parent.foldl (fun s par => fsnodes_add_sub_stats s (s.nodes.length + 1) par nsr psr) st
  let st := fsnodes_quota_update st p ((nsr.size : Int) - (psr.size : Int))
  let lengthOut := p.length
  let st :=
    if context.isPersonalityMaster then fs_changelog st
    else { st with metaversion := st.metaversion + 1 }
  let st :=
    match fsnodes_id_to_node st inode with
    | some q =>
      if q.mtime ≠ context.ts ∨ q.ctime ≠ context.ts then
        st.setNode inode { q with mtime := context.ts, ctime := context.ts }
      else st
    | none => st
  ⟨.STATUS_OK, fsnodes_update_checksum st, lockid, nchunkid, opflagOut, lengthOut⟩

/-- An environment whose permission checks always succeed and whose quota
checks never trigger; used to instantiate theorems on concrete states. -/
def trivialEnv : FsEnv where
  verify_session := fun _ => .STATUS_OK
  fsnodes_access := fun _ _ _ _ _ => true
  fsnodes_sticky_access := fun _ _ _ => true
  fsnodes_isancestor_or_node_reserved_or_trash := fun _ _ => true
  fsnodes_quota_exceeded_dir := fun _ _ _ _ => false
  fsnodes_get_size := fun _ => 0
  fsnodes_quota_exceeded := fun _ => false
  fsnodes_get_stats := fun _ => {}

/-! ### Chunk writer: read-source selection (`chunk_writer.cc`) -/

/-- Chunk part types as seen by the writer's executors: a standard replica, a
xor data part (`part` ranges over `1..level`) or a xor parity part of a given
XOR level. -/
inductive ChunkPartType where
  | standard
  | xorData (level part : Nat)
  | xorParity (level : Nat)
  deriving DecidableEq, Repr

def ChunkPartType.isStandard : ChunkPartType → Bool
  | .standard => true
  | _ => false

def ChunkPartType.isXorParity : ChunkPartType → Bool
  | .xorParity _ => true
  | _ => false

def ChunkPartType.getXorLevel : ChunkPartType → Nat
  | .standard => 0
  | .xorData level _ => level
  | .xorParity level => level

/-- A part from which a block can be served directly: a standard replica, or
the data part that naturally holds the block
(`blockIndex % getXorLevel(chunkType) + 1 == getXorPart(chunkType)`,
`chunk_writer.cc:489`). -/
def isImmediate (blockIndex : Nat) : ChunkPartType → Bool
  | .standard => true
  | .xorData level part => blockIndex % level + 1 == part
  | .xorParity _ => false

/-- The source-selection loop of `ChunkWriter::readBlock`
(`chunk_writer.cc:470-495`): executors are scanned in file-descriptor order; a
standard part breaks immediately, a parity part is recorded when nothing is
recorded yet or only a parity of a strictly higher XOR level, and the data
part naturally holding the block breaks immediately. -/
def readBlockSourceLoop (blockIndex : Nat) :
    List ChunkPartType → Option ChunkPartType → Option ChunkPartType
  | [], source => source
  | ct :: rest, source =>
    match ct with
    | .standard => some .standard
    | .xorParity level =>
      let replace : Bool :=
        match source with
        | none => true
        | some s => s.isXorParity && decide (level < s.getXorLevel)
      readBlockSourceLoop blockIndex rest
        (if replace then some (.xorParity level) else source)
    | .xorData level part =>
      if blockIndex % level + 1 = part then some (.xorData level part)
      else readBlockSourceLoop blockIndex rest source

/-- `ChunkWriter::readBlock`'s chosen read source (`none` models the
"No server to read block" exception). -/
def readBlockSource (executors : List ChunkPartType) (blockIndex : Nat) :
    Option ChunkPartType :=
  readBlockSourceLoop blockIndex executors none

/-- The lowest XOR level among the parity parts of a list (ties and order do
not matter: a parity part is determined by its level). -/
def lowestLevel : List ChunkPartType → Option Nat
  | [] => none
  | ct :: rest =>
    match ct with
    | .xorParity lv =>
      some (match lowestLevel rest with
            | none => lv
            | some r => if r < lv then r else lv)
    | _ => lowestLevel rest

/-- Merge of the loop accumulator with the best level of the remaining list,
keeping the earlier entry unless a strictly lower level appears. -/
def minParity : Option Nat → Option Nat → Option Nat
  | none, r => r
  | some a, none => some a
  | some a, some r => some (if r < a then r else a)

/-! ### Chunk writer: operation scheduling (`chunk_writer.cc`) -/

/-- 1024 blocks of 64 KiB per 64 MiB chunk. -/
def MFSBLOCKSINCHUNK : Nat := 1024

/-- The parts of a `WriteCacheBlock` sitting in the writer's journal that the
scheduling logic reads: the block index inside the chunk and the dirty byte
range `[from, to)` inside the block. -/
structure WBlock where
  blockIndex : Nat
  from_ : Nat
  to_ : Nat
  deriving DecidableEq, Repr

/-- A write operation: the journal positions it consists of
(`ChunkWriter::Operation`; the write counters and the end offset play no role
in scheduling). -/
structure Operation where
  journalPositions : List WBlock
  deriving DecidableEq, Repr

/-- The overlap test of `Operation::collidesWith` for one pair of positions
(`chunk_writer.cc:79`): same block index and intersecting `[from, to)`
ranges. -/
def positionsCollide (p1 p2 : WBlock) : Bool :=
  (p1.blockIndex == p2.blockIndex) && decide (p1.from_ < p2.to_)
    && decide (p2.from_ < p1.to_)

/-- `Operation::collidesWith` (`chunk_writer.cc:79-92`). -/
def Operation.collidesWith (op1 op2 : Operation) : Bool :=
  op1.journalPositions.any (fun position1 =>
    op2.journalPositions.any (fun position2 => positionsCollide position1 position2))

/-- `Operation::isExpandPossible` (`chunk_writer.cc:54-68`): the new position
must share the `(from, to)` range and the stripe of every present position and
bring a new block index. -/
def Operation.isExpandPossible (op : Operation) (newPosition : WBlock)
    (stripeSize : Nat) : Bool :=
  op.journalPositions.all (fun position =>
    (newPosition.from_ == position.from_) && (newPosition.to_ == position.to_)
      && (newPosition.blockIndex / stripeSize == position.blockIndex / stripeSize)
      && (newPosition.blockIndex != position.blockIndex))

/-- `Operation::expand` (`chunk_writer.cc:70-77`, journal bookkeeping only). -/
def Operation.expand (op : Operation) (p : WBlock) : Operation :=
  { op with journalPositions := op.journalPositions ++ [p] }

/-- `Operation::isFullStripe` (`chunk_writer.cc:94-106`): the stripe touching
the end of the chunk is shorter when `MFSBLOCKSINCHUNK % stripeSize != 0`. -/
def Operation.isFullStripe (op : Operation) (stripeSize : Nat) : Bool :=
  match op.journalPositions with
  | [] => false
  | front :: _ =>
    let elementsInStripe :=
      if front.blockIndex / stripeSize = (MFSBLOCKSINCHUNK - 1) / stripeSize ∧
          MFSBLOCKSINCHUNK % stripeSize ≠ 0 then
        MFSBLOCKSINCHUNK % stripeSize
      else stripeSize
    op.journalPositions.length == elementsInStripe

/-- The writer state read by the scheduling logic: the queue of not yet
started operations (in insertion order), the in-flight operations and the
flush flag.  The combined stripe size is a parameter of the transition
system (`init` fixes it for the writer's lifetime). -/
structure ChunkWriter where
  newOperations : List Operation
  pendingOperations : List Operation
  acceptsNewOperations : Bool
  deriving DecidableEq, Repr

/-- `ChunkWriter::addOperation` (`chunk_writer.cc:322-339`): append the block
to the last queued operation when `isExpandPossible` allows it, else open a
new operation holding just this block. -/
def addOperation (s : Nat) (w : ChunkWriter) (p : WBlock) : ChunkWriter :=
  match w.newOperations.getLast? with
  | none => { w with newOperations := [Operation.expand ⟨[]⟩ p] }
  | some lastOp =>
    if lastOp.isExpandPossible p s then
      { w with newOperations := w.newOperations.dropLast ++ [lastOp.expand p] }
    else
      { w with newOperations := w.newOperations ++ [Operation.expand ⟨[]⟩ p] }

/-- `ChunkWriter::canStartOperation` (`chunk_writer.cc:341-351`): refuse when
the operation collides with any pending operation. -/
def canStartOperation (w : ChunkWriter) (op : Operation) : Bool :=
  w.pendingOperations.all (fun pendingOperation => !(op.collidesWith pendingOperation))

/-- The journal part of `ChunkWriter::startOperation`'s fill phase
(`chunk_writer.cc:359-396`): a partial-stripe operation receives read blocks
for the missing in-chunk elements of its combined stripe, carrying the
`(from, to)` range of the operation's first position.  The C++ loop breaks at
the first block index beyond the chunk; as the candidates grow monotonically,
skipping them is equivalent. -/
def fillStripe (s : Nat) (op : Operation) : Operation :=
  match op.journalPositions with
  | [] => op
  | front :: _ =>
    let combinedStripe := front.blockIndex / s
    let extra := (List.range s).filterMap (fun indexInStripe =>
      if op.journalPositions.any
          (fun position => position.blockIndex % s == indexInStripe) then none
      else if MFSBLOCKSINCHUNK ≤ combinedStripe * s + indexInStripe then none
      else some { blockIndex := combinedStripe * s + indexInStripe,
                  from_ := front.from_, to_ := front.to_ })
    { op with journalPositions := op.journalPositions ++ extra }

/-- The loop of `ChunkWriter::startNewOperations` (`chunk_writer.cc:176-197`):
operations start in queue order; the loop stops at the last still-expandable
operation while the writer accepts new data, and at the first operation
refused by `canStartOperation`.  A started operation is moved, stripe-filled,
to the pending set.  Returns the remaining queue and the new pending list. -/
def startLoop (s : Nat) (accepts : Bool) :
    List Operation → List Operation → List Operation × List Operation
  | [], pending => ([], pending)
  | op :: rest, pending =>
    if rest.isEmpty && accepts && !(op.isFullStripe s) then (op :: rest, pending)
    else if pending.all (fun pendingOperation => !(op.collidesWith pendingOperation)) then
      startLoop s accepts rest (pending ++ [fillStripe s op])
    else (op :: rest, pending)

/-- `ChunkWriter::startNewOperations` on the writer state. -/
def startNewOperations (s : Nat) (w : ChunkWriter) : ChunkWriter :=
  { w with
    newOperations := (startLoop s w.acceptsNewOperations w.newOperations
      w.pendingOperations).1
    pendingOperations := (startLoop s w.acceptsNewOperations w.newOperations
      w.pendingOperations).2 }

/-- The writer transitions: `addOperation` (only while new data is accepted,
with a block inside the chunk), `startNewOperations`, completion of a pending
operation (`processStatus` erasing the operation whose last write finished),
`startFlushMode` and `dropNewOperations`. -/
inductive WStep (s : Nat) : ChunkWriter → ChunkWriter → Prop where
  | add (w : ChunkWriter) (p : WBlock) (haccept : w.acceptsNewOperations = true)
      (hbound : p.blockIndex < MFSBLOCKSINCHUNK) : WStep s w (addOperation s w p)
  | start (w : ChunkWriter) : WStep s w (startNewOperations s w)
  | complete (w : ChunkWriter) (i : Nat) :
      WStep s w { w with pendingOperations := w.pendingOperations.eraseIdx i }
  | flush (w : ChunkWriter) : WStep s w { w with acceptsNewOperations := false }
  | drop (w : ChunkWriter) :
      WStep s w { w with newOperations := [], acceptsNewOperations := false }

/-- The writer right after `init`: empty queue, no pending data operations,
accepting new data. -/
def initWriter : ChunkWriter where
  newOperations := []
  pendingOperations := []
  acceptsNewOperations := true

/-- States reachable from a fresh writer. -/
def WReachable (s : Nat) (w : ChunkWriter) : Prop :=
  Relation.ReflTransGen (WStep s) initWriter w

/-- Shape of every operation the writer builds: non-empty, a single `(from,
to)` range, a single combined stripe `t`, all blocks inside the chunk. -/
def OpUniform (s : Nat) (op : Operation) (t f u : Nat) : Prop :=
  op.journalPositions ≠ [] ∧ ∀ x ∈ op.journalPositions,
    x.from_ = f ∧ x.to_ = u ∧ x.blockIndex / s = t ∧ x.blockIndex < MFSBLOCKSINCHUNK

/-- A stripe-filled operation holds a position for every in-chunk block of its
combined stripe. -/
def OpCovers (s : Nat) (op : Operation) (t : Nat) : Prop :=
  ∀ b, b / s = t → b < MFSBLOCKSINCHUNK → ∃ x ∈ op.journalPositions, x.blockIndex = b

/-- The scheduling invariant: queued operations are uniform; pending
operations are uniform, stripe-covering and pairwise non-colliding. -/
def WInv (s : Nat) (w : ChunkWriter) : Prop :=
  (∀ op ∈ w.newOperations, ∃ t f u, OpUniform s op t f u) ∧
  (∀ op ∈ w.pendingOperations, ∃ t f u, OpUniform s op t f u ∧ OpCovers s op t) ∧
  List.Pairwise (fun op1 op2 => op1.collidesWith op2 = false ∧
    op2.collidesWith op1 = false) w.pendingOperations

/-! ## Theorems -/

/-! Support lemmas about the node table. -/

theorem findPair_map_set {κ α : Type} [BEq κ] [LawfulBEq κ] (l : List (κ × α)) (id : κ) (n : α) :
    (l.map (fun e => if e.1 == id then (e.1, n) else e)).find? (fun e => e.1 == id) =
      Option.map (fun e => (e.1, n)) (l.find? (fun e => e.1 == id)) := by
  induction l with
  | nil => rfl
  | cons a l ih =>
    rw [List.map_cons, List.find?_cons, List.find?_cons]
    by_cases h : a.1 = id
    · have hb : (a.1 == id) = true := beq_iff_eq.mpr h
      rw [if_pos hb]
      simp only [hb]
      rfl
    · have hb : (a.1 == id) = false := beq_eq_false_iff_ne.mpr h
      rw [if_neg (by simp [hb])]
      simp only [hb]
      exact ih

theorem findPair_map_set_other {κ α : Type} [BEq κ] [LawfulBEq κ] (l : List (κ × α)) (id : κ)
    (n : α) (id' : κ) (h : id' ≠ id) :
    (l.map (fun e => if e.1 == id then (e.1, n) else e)).find? (fun e => e.1 == id') =
      l.find? (fun e => e.1 == id') := by
  induction l with
  | nil => rfl
  | cons a l ih =>
    rw [List.map_cons, List.find?_cons, List.find?_cons]
    by_cases ha : a.1 = id
    · have hb : (a.1 == id) = true := beq_iff_eq.mpr ha
      have hc : (a.1 == id') = false := beq_eq_false_iff_ne.mpr (fun hx => h (hx ▸ ha))
      rw [if_pos hb]
      have hc' : ((a.1, n).1 == id') = false := hc
      simp only [hc, hc']
      exact ih
    · have hb : (a.1 == id) = false := beq_eq_false_iff_ne.mpr ha
      rw [if_neg (by simp [hb])]
      cases hc : (a.1 == id') with
      | true => simp only [hc]
      | false => simp only [hc]; exact ih

theorem findPair_filter_self {κ α : Type} [BEq κ] [LawfulBEq κ] (l : List (κ × α)) (id : κ) :
    (l.filter (fun e => e.1 != id)).find? (fun e => e.1 == id) = none := by
  induction l with
  | nil => rfl
  | cons a l ih =>
    rw [List.filter_cons]
    by_cases h : a.1 = id
    · have hb : (a.1 != id) = false := by simp [h]
      rw [if_neg (by simp [hb])]
      exact ih
    · have hb : (a.1 != id) = true := by simp [h]
      rw [if_pos (by simp [hb]), List.find?_cons]
      have hc : (a.1 == id) = false := beq_eq_false_iff_ne.mpr h
      simp only [hc]
      exact ih

theorem findPair_filter_other {κ α : Type} [BEq κ] [LawfulBEq κ] (l : List (κ × α)) (id : κ)
    (id' : κ) (h : id' ≠ id) :
    (l.filter (fun e => e.1 != id)).find? (fun e => e.1 == id') =
      l.find? (fun e => e.1 == id') := by
  induction l with
  | nil => rfl
  | cons a l ih =>
    rw [List.filter_cons, List.find?_cons]
    by_cases ha : a.1 = id
    · have hb : (a.1 != id) = false := by simp [ha]
      have hc : (a.1 == id') = false := beq_eq_false_iff_ne.mpr (fun hx => h (hx ▸ ha))
      rw [if_neg (by simp [hb])]
      simp only [hc]
      exact ih
    · have hb : (a.1 != id) = true := by simp [ha]
      rw [if_pos (by simp [hb]), List.find?_cons]
      cases hc : (a.1 == id') with
      | true => simp only [hc]
      | false => simp only [hc]; exact ih

theorem id_to_node_setNode_self {st : Metadata} {id : Nat} {p : FSNode}
    (hp : fsnodes_id_to_node st id = some p) (n : FSNode) :
    fsnodes_id_to_node (st.setNode id n) id = some n := by
  unfold fsnodes_id_to_node Metadata.setNode at *
  rw [findPair_map_set]
  cases hfind : st.nodes.find? (fun e => e.1 == id) with
  | none => rw [hfind] at hp; exact absurd hp (by simp)
  | some e => simp

theorem id_to_node_setNode_other {st : Metadata} (id : Nat) (n : FSNode)
    (id' : Nat) (h : id' ≠ id) :
    fsnodes_id_to_node (st.setNode id n) id' = fsnodes_id_to_node st id' := by
  unfold fsnodes_id_to_node Metadata.setNode
  rw [findPair_map_set_other _ _ _ _ h]

theorem id_to_node_eraseNode_self (st : Metadata) (id : Nat) :
    fsnodes_id_to_node (st.eraseNode id) id = none := by
  unfold fsnodes_id_to_node Metadata.eraseNode
  rw [findPair_filter_self]

theorem id_to_node_eraseNode_other (st : Metadata) (id : Nat) (id' : Nat) (h : id' ≠ id) :
    fsnodes_id_to_node (st.eraseNode id) id' = fsnodes_id_to_node st id' := by
  unfold fsnodes_id_to_node Metadata.eraseNode
  rw [findPair_filter_other _ _ _ h]

theorem id_to_node_changelog (st : Metadata) (id : Nat) :
    fsnodes_id_to_node (fs_changelog st) id = fsnodes_id_to_node st id := rfl

/-- C10: acquiring a session id already present in the inode's session list
fails with EINVAL and changes nothing (in particular the metadata version);
acquiring a session id not yet present appends it to the list exactly once. -/
theorem fs_acquire_spec (context : FsContext) (st : Metadata) (inode sessionid : Nat)
    (p : FSNode) (hp : fsnodes_id_to_node st inode = some p)
    (htype : p.type = .kFile ∨ p.type = .kTrash ∨ p.type = .kReserved) :
    (sessionid ∈ p.sessionid →
      fs_acquire context st inode sessionid = (.ERROR_EINVAL, st))
    ∧ (sessionid ∉ p.sessionid →
      (fs_acquire context st inode sessionid).1 = .STATUS_OK
      ∧ ∃ q, fsnodes_id_to_node (fs_acquire context st inode sessionid).2 inode = some q
          ∧ q.sessionid = p.sessionid ++ [sessionid]
          ∧ q.sessionid.count sessionid = 1) := by
  have htype' : ¬(p.type ≠ .kFile ∧ p.type ≠ .kTrash ∧ p.type ≠ .kReserved) := by
    rcases htype with h | h | h <;> simp [h]
  constructor
  · intro hmem
    unfold fs_acquire
    rw [hp]
    dsimp only
    rw [if_neg htype', if_pos hmem]
  · intro hmem
    unfold fs_acquire
    rw [hp]
    dsimp only
    rw [if_neg htype', if_neg hmem]
    have hq : fsnodes_id_to_node
        (st.setNode inode { p with sessionid := p.sessionid ++ [sessionid] }) inode =
        some { p with sessionid := p.sessionid ++ [sessionid] } :=
      id_to_node_setNode_self hp _
    have hcount : (p.sessionid ++ [sessionid]).count sessionid = 1 := by
      rw [List.count_append, List.count_eq_zero.mpr hmem]
      simp
    cases hm : context.isPersonalityMaster
    · rw [if_neg (by simp [hm])]
      exact ⟨rfl, _, hq, rfl, hcount⟩
    · rw [if_pos (by simp [hm])]
      exact ⟨rfl, _, hq, rfl, hcount⟩

/-- Characterisation of `isLimitExceeded` over one owner table. -/
theorem isLimitExceeded_iff (db : QuotaDatabase) (rigor : QuotaRigor)
    (resource : QuotaResource) (ownerType : QuotaOwnerType) (ownerId : Nat) :
    db.isLimitExceeded rigor resource ownerType ownerId = true ↔
      ∃ l, (db.table ownerType).findEntry ownerId = some l ∧
        extractLimit l rigor resource ≠ 0 ∧
        extractLimit l rigor resource <
          extractUsage l resource + (if rigor = .kHard then 1 else 0) := by
  unfold QuotaDatabase.isLimitExceeded
  cases h : (db.table ownerType).findEntry ownerId with
  | none => simp [h]
  | some l =>
    simp only [h, Bool.and_eq_true, bne_iff_ne, ne_eq, decide_eq_true_eq, Option.some.injEq]
    constructor
    · rintro ⟨h1, h2⟩
      refine ⟨l, rfl, h1, ?_⟩
      cases rigor <;> simpa [Nat.lt_iff_add_one_le] using h2
    · rintro ⟨l', hl', hne, hlt⟩
      cases hl'
      refine ⟨hne, ?_⟩
      cases rigor <;> simpa [Nat.lt_iff_add_one_le] using hlt

/-- C4: `isExceeded(rigor, resource, uid, gid)` returns true iff, for the user
entry of `uid` or the group entry of `gid`, the stored limit is non-zero and the
stored usage (incremented by one when the rigor is hard) strictly exceeds the
stored limit; an owner without an entry is never exceeded. -/
theorem quota_isExceeded_iff (db : QuotaDatabase) (rigor : QuotaRigor)
    (resource : QuotaResource) (uid gid : Nat) :
    db.isExceeded rigor resource uid gid = true ↔
      ((∃ l, db.uidData.findEntry uid = some l ∧
          extractLimit l rigor resource ≠ 0 ∧
          extractLimit l rigor resource <
            extractUsage l resource + (if rigor = .kHard then 1 else 0)) ∨
       (∃ l, db.gidData.findEntry gid = some l ∧
          extractLimit l rigor resource ≠ 0 ∧
          extractLimit l rigor resource <
            extractUsage l resource + (if rigor = .kHard then 1 else 0))) := by
  unfold QuotaDatabase.isExceeded
  rw [Bool.or_eq_true, isLimitExceeded_iff, isLimitExceeded_iff]
  rfl

/-- Every entry produced by `getEntriesTable` has a strictly positive limit,
which is the limit stored for its owner in the table. -/
theorem getEntriesTable_mem {data : DataTable} {ownerType : QuotaOwnerType}
    {e : QuotaEntry} (he : e ∈ getEntriesTable data ownerType) :
    0 < e.limit ∧ e.entryKey.owner.ownerType = ownerType ∧
      ∃ p ∈ data, p.1 = e.entryKey.owner.ownerId ∧
        e.limit = extractLimit p.2 e.entryKey.rigor e.entryKey.resource := by
  unfold getEntriesTable at he
  simp only [List.mem_flatMap, List.mem_filterMap] at he
  obtain ⟨p, hp, rigor, hrigor, resource, hresource, hcond⟩ := he
  by_cases h : 0 < extractLimit p.2 rigor resource
  · simp only [h, if_pos] at hcond
    cases hcond
    exact ⟨h, rfl, p, hp, rfl, rfl⟩
  · simp [h] at hcond

/-- C9: `remove` produces exactly the state of `set` with value `0` (it is a
direct delegation, so usage counters and the other limits of the owner are
retained while the selected limit becomes zero), `getEntries` lists only
entries whose stored limit is strictly positive, and an owner all of whose
limits are zero is never listed. -/
theorem quota_remove_eq_set_zero (db : QuotaDatabase) (rigor : QuotaRigor)
    (resource : QuotaResource) (ownerType : QuotaOwnerType) (ownerId : Nat) :
    db.remove rigor resource ownerType ownerId = db.set rigor resource ownerType ownerId 0
    ∧ (∀ l : QuotaLimits, extractLimit (assignLimit l rigor resource 0) rigor resource = 0
         ∧ ∀ r : QuotaResource, extractUsage (assignLimit l rigor resource 0) r = extractUsage l r)
    ∧ (∀ e ∈ db.getEntries, 0 < e.limit
        ∧ ∃ p ∈ db.table e.entryKey.owner.ownerType, p.1 = e.entryKey.owner.ownerId ∧
            e.limit = extractLimit p.2 e.entryKey.rigor e.entryKey.resource)
    ∧ (∀ ownerType' ownerId',
        (∀ p ∈ db.table ownerType', p.1 = ownerId' →
          ∀ rigor' resource', extractLimit p.2 rigor' resource' = 0) →
        ∀ e ∈ db.getEntries,
          ¬(e.entryKey.owner.ownerType = ownerType' ∧ e.entryKey.owner.ownerId = ownerId')) := by
  refine ⟨rfl, ?_, ?_, ?_⟩
  · intro l
    constructor
    · cases rigor <;> cases resource <;> rfl
    · intro r
      cases rigor <;> cases resource <;> cases r <;> rfl
  · intro e he
    unfold QuotaDatabase.getEntries at he
    rcases List.mem_append.mp he with h | h
    · obtain ⟨hpos, hot, p, hp, hid, hlim⟩ := getEntriesTable_mem h
      exact ⟨hpos, p, by rw [hot]; exact hp, hid, hlim⟩
    · obtain ⟨hpos, hot, p, hp, hid, hlim⟩ := getEntriesTable_mem h
      exact ⟨hpos, p, by rw [hot]; exact hp, hid, hlim⟩
  · intro ownerType' ownerId' hzero e he ⟨hot, hid⟩
    unfold QuotaDatabase.getEntries at he
    rcases List.mem_append.mp he with h | h <;>
    · obtain ⟨hpos, hot', p, hp, hpid, hlim⟩ := getEntriesTable_mem h
      rw [hlim] at hpos
      rw [hzero p (by rw [← hot, hot']; exact hp) (by rw [hpid, hid])] at hpos
      exact Nat.lt_irrefl 0 hpos

/-- Effect of `fsnodes_unlink` on a singly-linked file child: the edge
disappears and the child follows the Reserved / Trash / purge trichotomy. -/
theorem fsnodes_unlink_spec (ts : Nat) (st : Metadata) (wdId : Nat) (name : String)
    (wd child : FSNode)
    (hwd : fsnodes_id_to_node st wdId = some wd)
    (hchild : fsnodes_id_to_node st child.id = some child)
    (hne : child.id ≠ wdId)
    (hpar : child.parent = [wdId])
    (hfile : child.type = .kFile) :
    (∃ wd', fsnodes_id_to_node (fsnodes_unlink ts st wdId name child.id) wdId = some wd'
       ∧ fsnodes_lookup (fsnodes_unlink ts st wdId name child.id) wd' name = none)
    ∧ (child.sessionid ≠ [] →
        ∃ q, fsnodes_id_to_node (fsnodes_unlink ts st wdId name child.id) child.id = some q
          ∧ q.type = .kReserved ∧ q.sessionid = child.sessionid)
    ∧ (child.sessionid = [] → 0 < child.trashtime →
        ∃ q, fsnodes_id_to_node (fsnodes_unlink ts st wdId name child.id) child.id = some q
          ∧ q.type = .kTrash ∧ q.trashtime = child.trashtime)
    ∧ (child.sessionid = [] → child.trashtime = 0 →
        fsnodes_id_to_node (fsnodes_unlink ts st wdId name child.id) child.id = none) := by
  unfold fsnodes_unlink fsnodes_remove_edge
  rw [hwd]
  dsimp only
  set wd' : FSNode :=
    { wd with entries := wd.entries.filter (fun e => e.1 != name), mtime := ts, ctime := ts }
    with hwd'
  set stA : Metadata := st.setNode wdId wd' with hstA
  have hAchild : fsnodes_id_to_node stA child.id = some child := by
    rw [hstA, id_to_node_setNode_other _ _ _ hne, hchild]
  rw [hAchild]
  dsimp only
  rw [hpar]
  have herase : List.erase [wdId] wdId = [] := List.erase_cons_head wdId []
  rw [herase]
  set c' : FSNode := { child with parent := [], ctime := ts } with hc'
  set stB : Metadata := stA.setNode child.id c' with hstB
  have hBchild : fsnodes_id_to_node stB child.id = some c' := by
    rw [hstB]
    exact id_to_node_setNode_self hAchild _
  rw [hBchild]
  dsimp only
  have hcparent : c'.parent.isEmpty = true := rfl
  rw [if_pos hcparent]
  have hwdA : fsnodes_id_to_node stA wdId = some wd' := by
    rw [hstA]
    exact id_to_node_setNode_self hwd _
  have hwdB : fsnodes_id_to_node stB wdId = some wd' := by
    rw [hstB, id_to_node_setNode_other _ _ _ (Ne.symm hne)]
    exact hwdA
  have hlookupNone : ∀ stX : Metadata, fsnodes_lookup stX wd' name = none := by
    intro stX
    unfold fsnodes_lookup
    rw [hwd']
    dsimp only
    rw [findPair_filter_self]
  by_cases hsess : child.sessionid = []
  · rw [if_neg (by simp [hc', hsess])]
    by_cases htrash : 0 < child.trashtime
    · rw [if_pos (by simp [hc', hfile]; omega)]
      refine ⟨⟨wd', ?_, hlookupNone _⟩, ?_, ?_, ?_⟩
      · rw [id_to_node_setNode_other _ _ _ (Ne.symm hne)]
        exact hwdB
      · intro hcon; exact absurd hsess hcon
      · intro _ _
        exact ⟨{ c' with type := .kTrash }, id_to_node_setNode_self hBchild _, rfl, rfl⟩
      · intro _ hzero; omega
    · rw [if_neg (by simp [hc', hfile]; omega)]
      refine ⟨⟨wd', ?_, hlookupNone _⟩, ?_, ?_, ?_⟩
      · unfold fsnodes_purge
        rw [id_to_node_eraseNode_other _ _ _ (Ne.symm hne)]
        exact hwdB
      · intro hcon; exact absurd hsess hcon
      · intro _ hpos; omega
      · intro _ _
        unfold fsnodes_purge
        exact id_to_node_eraseNode_self _ _
  · rw [if_pos (by simp [hc', hfile, hsess])]
    refine ⟨⟨wd', ?_, hlookupNone _⟩, ?_, ?_, ?_⟩
    · rw [id_to_node_setNode_other _ _ _ (Ne.symm hne)]
      exact hwdB
    · intro _
      exact ⟨{ c' with type := .kReserved }, id_to_node_setNode_self hBchild _, rfl, rfl⟩
    · intro hcon; exact absurd hcon hsess
    · intro hcon; exact absurd hcon hsess


theorem id_to_node_metaversion (st : Metadata) (v id : Nat) :
    fsnodes_id_to_node { st with metaversion := v } id = fsnodes_id_to_node st id := rfl

/-- `fs_unlink` under passing precondition checks reduces to a changelog
append followed by `fsnodes_unlink`. -/
theorem fs_unlink_success (env : FsEnv) (ts : Nat) (st : Metadata) (sesflags parent : Nat)
    (name : String) (uid gid : Nat) (wd child : FSNode)
    (hro : sesflags &&& SESFLAG_READONLY = 0)
    (hwd : fsnodes_id_to_node st parent = some wd)
    (hwdty : wd.type = .kDirectory)
    (hacc : env.fsnodes_access wd uid gid MODE_MASK_W sesflags = true)
    (hname : fsnodes_namecheck name = true)
    (hlook : fsnodes_lookup st wd name = some child)
    (hsticky : env.fsnodes_sticky_access wd child uid = true)
    (hfile : child.type = .kFile) :
    fs_unlink env ts st SPECIAL_INODE_ROOT sesflags parent name uid gid =
      (.STATUS_OK, fsnodes_unlink ts (fs_changelog st) parent name child.id) := by
  unfold fs_unlink
  rw [if_neg (by simp [hro])]
  rw [if_pos rfl]
  rw [hwd]
  dsimp only
  rw [if_neg (by simp [hwdty]), if_neg (by simp [hacc]), if_neg (by simp [hname])]
  rw [hlook]
  dsimp only
  rw [if_neg (by simp [hsticky]), if_neg (by simp [hfile])]

/-- Effect of `fs_release` on a Reserved inode holding the session. -/
theorem fs_release_trace (context : FsContext) (st : Metadata) (inode sessionid : Nat)
    (p : FSNode) (hp : fsnodes_id_to_node st inode = some p)
    (hres : p.type = .kReserved) (hmem : sessionid ∈ p.sessionid) :
    (fs_release context st inode sessionid).1 = .STATUS_OK
    ∧ (p.sessionid.erase sessionid = [] →
        fsnodes_id_to_node (fs_release context st inode sessionid).2 inode = none)
    ∧ (p.sessionid.erase sessionid ≠ [] →
        fsnodes_id_to_node (fs_release context st inode sessionid).2 inode =
          some { p with sessionid := p.sessionid.erase sessionid })
    ∧ (∀ other, other ≠ inode →
        fsnodes_id_to_node (fs_release context st inode sessionid).2 other =
          fsnodes_id_to_node st other) := by
  have htype' : ¬(p.type ≠ .kFile ∧ p.type ≠ .kTrash ∧ p.type ≠ .kReserved) := by
    simp [hres]
  unfold fs_release
  rw [hp]
  dsimp only
  rw [if_neg htype', if_pos hmem]
  by_cases hrem : p.sessionid.erase sessionid = []
  · rw [if_pos (And.intro hres hrem)]
    unfold fsnodes_purge
    cases hm : context.isPersonalityMaster
    · rw [if_neg (by simp [hm])]
      refine ⟨rfl, fun _ => ?_, fun hcon => absurd hrem hcon, fun o ho => ?_⟩
      · rw [id_to_node_metaversion]
        exact id_to_node_eraseNode_self _ _
      · rw [id_to_node_metaversion]
        exact id_to_node_eraseNode_other _ _ _ ho
    · rw [if_pos (by simp [hm])]
      refine ⟨rfl, fun _ => ?_, fun hcon => absurd hrem hcon, fun o ho => ?_⟩
      · rw [id_to_node_changelog]
        exact id_to_node_eraseNode_self _ _
      · rw [id_to_node_changelog]
        exact id_to_node_eraseNode_other _ _ _ ho
  · rw [if_neg (show ¬(p.type = NodeType.kReserved ∧ p.sessionid.erase sessionid = []) from
          fun hcon => hrem hcon.2)]
    unfold fsnodes_update_checksum
    cases hm : context.isPersonalityMaster
    · rw [if_neg (by simp [hm])]
      refine ⟨rfl, fun hcon => absurd hcon hrem, fun _ => ?_, fun o ho => ?_⟩
      · rw [id_to_node_metaversion]
        exact id_to_node_setNode_self hp _
      · rw [id_to_node_metaversion]
        exact id_to_node_setNode_other _ _ _ ho
    · rw [if_pos (by simp [hm])]
      refine ⟨rfl, fun hcon => absurd hcon hrem, fun _ => ?_, fun o ho => ?_⟩
      · rw [id_to_node_changelog]
        exact id_to_node_setNode_self hp _
      · rw [id_to_node_changelog]
        exact id_to_node_setNode_other _ _ _ ho

/-- C1: unlinking a (singly linked) file removes the directory edge and then:
with a session holding the file open the inode becomes Reserved, else with
positive trashtime it becomes Trash, else it is purged; and on a Reserved
inode, releasing the last held session purges the inode immediately while
releasing a non-last session only removes that session id from the inode's
session list (all other inodes untouched). -/
theorem unlink_release_lifecycle (env : FsEnv) (ts : Nat) (st : Metadata)
    (sesflags parent : Nat) (name : String) (uid gid : Nat) (wd child : FSNode)
    (hro : sesflags &&& SESFLAG_READONLY = 0)
    (hwd : fsnodes_id_to_node st parent = some wd)
    (hwdty : wd.type = .kDirectory)
    (hacc : env.fsnodes_access wd uid gid MODE_MASK_W sesflags = true)
    (hname : fsnodes_namecheck name = true)
    (hlook : fsnodes_lookup st wd name = some child)
    (hsticky : env.fsnodes_sticky_access wd child uid = true)
    (hfile : child.type = .kFile)
    (hkey : fsnodes_id_to_node st child.id = some child)
    (hne : child.id ≠ parent)
    (hpar : child.parent = [parent])
    (context : FsContext) (st2 : Metadata) (inode sessionid : Nat) (p : FSNode)
    (hp : fsnodes_id_to_node st2 inode = some p)
    (hres : p.type = .kReserved)
    (hmem : sessionid ∈ p.sessionid) :
    ((fs_unlink env ts st SPECIAL_INODE_ROOT sesflags parent name uid gid).1 = .STATUS_OK
     ∧ (∃ wd', fsnodes_id_to_node
          (fs_unlink env ts st SPECIAL_INODE_ROOT sesflags parent name uid gid).2 parent =
            some wd'
        ∧ fsnodes_lookup
            (fs_unlink env ts st SPECIAL_INODE_ROOT sesflags parent name uid gid).2 wd' name =
            none)
     ∧ (child.sessionid ≠ [] →
        ∃ q, fsnodes_id_to_node
            (fs_unlink env ts st SPECIAL_INODE_ROOT sesflags parent name uid gid).2 child.id =
              some q
          ∧ q.type = .kReserved ∧ q.sessionid = child.sessionid)
     ∧ (child.sessionid = [] → 0 < child.trashtime →
        ∃ q, fsnodes_id_to_node
            (fs_unlink env ts st SPECIAL_INODE_ROOT sesflags parent name uid gid).2 child.id =
              some q
          ∧ q.type = .kTrash ∧ q.trashtime = child.trashtime)
     ∧ (child.sessionid = [] → child.trashtime = 0 →
        fsnodes_id_to_node
          (fs_unlink env ts st SPECIAL_INODE_ROOT sesflags parent name uid gid).2 child.id =
            none))
    ∧ ((fs_release context st2 inode sessionid).1 = .STATUS_OK
     ∧ (p.sessionid.erase sessionid = [] →
        fsnodes_id_to_node (fs_release context st2 inode sessionid).2 inode = none)
     ∧ (p.sessionid.erase sessionid ≠ [] →
        fsnodes_id_to_node (fs_release context st2 inode sessionid).2 inode =
          some { p with sessionid := p.sessionid.erase sessionid })
     ∧ (∀ other, other ≠ inode →
        fsnodes_id_to_node (fs_release context st2 inode sessionid).2 other =
          fsnodes_id_to_node st2 other)) := by
  have hEq := fs_unlink_success env ts st sesflags parent name uid gid wd child
    hro hwd hwdty hacc hname hlook hsticky hfile
  have hU := fsnodes_unlink_spec ts (fs_changelog st) parent name wd child
    (by rw [id_to_node_changelog]; exact hwd)
    (by rw [id_to_node_changelog]; exact hkey) hne hpar hfile
  have hR := fs_release_trace context st2 inode sessionid p hp hres hmem
  rw [hEq]
  exact ⟨⟨rfl, hU.1, hU.2.1, hU.2.2.1, hU.2.2.2⟩, hR⟩


/-- Concrete instantiation of the lifecycle theorem: unlinking `/f` (file
inode 2, one open session) succeeds, and releasing the only session of
Reserved inode 3 succeeds. -/
theorem unlink_release_lifecycle_witness :
    (fs_unlink trivialEnv 5
      { nodes := [(1, { id := 1, type := .kDirectory, entries := [("f", 2)] }),
                  (2, { id := 2, type := .kFile, parent := [1], sessionid := [7] })] }
      SPECIAL_INODE_ROOT 0 1 "f" 0 0).1 = .STATUS_OK
    ∧ (fs_release { personality := .kShadow }
        { nodes := [(3, { id := 3, type := .kReserved, sessionid := [9] })] } 3 9).1 =
        .STATUS_OK := by
  have h := unlink_release_lifecycle trivialEnv 5
    { nodes := [(1, { id := 1, type := .kDirectory, entries := [("f", 2)] }),
                (2, { id := 2, type := .kFile, parent := [1], sessionid := [7] })] }
    0 1 "f" 0 0
    { id := 1, type := .kDirectory, entries := [("f", 2)] }
    { id := 2, type := .kFile, parent := [1], sessionid := [7] }
    (by decide) (by decide) (by decide) rfl (by decide) (by decide) rfl (by decide)
    (by decide) (by decide) (by decide)
    { personality := .kShadow }
    { nodes := [(3, { id := 3, type := .kReserved, sessionid := [9] })] } 3 9
    { id := 3, type := .kReserved, sessionid := [9] }
    (by decide) (by decide) (by decide)
  exact ⟨h.1.1, h.2.1⟩


/-! Metaversion bookkeeping of the mutation helpers. -/

theorem metaversion_setNode (st : Metadata) (id : Nat) (n : FSNode) :
    (st.setNode id n).metaversion = st.metaversion := rfl

theorem metaversion_remove_edge (ts : Nat) (st : Metadata) (w : Nat) (n : String) (c : Nat) :
    (fsnodes_remove_edge ts st w n c).metaversion = st.metaversion := by
  unfold fsnodes_remove_edge
  split <;> (dsimp only; split <;> rfl)

theorem metaversion_link (ts : Nat) (st : Metadata) (w c : Nat) (n : String) :
    (fsnodes_link ts st w c n).metaversion = st.metaversion := by
  unfold fsnodes_link
  split <;> (dsimp only; split <;> rfl)

theorem metaversion_unlink (ts : Nat) (st : Metadata) (w : Nat) (n : String) (c : Nat) :
    (fsnodes_unlink ts st w n c).metaversion = st.metaversion := by
  unfold fsnodes_unlink fsnodes_purge Metadata.eraseNode
  dsimp only
  repeat' (first | split | dsimp only)
  all_goals exact metaversion_remove_edge ts st w n c

theorem get_node_error_ne_ok (env : FsEnv) (context : FsContext) (st : Metadata)
    (expected : ExpectedNodeType) (modemask : Nat) (id : Nat) (s : LizStatus)
    (h : fsnodes_get_node_for_operation env context st expected modemask id =
      Except.error s) : s ≠ .STATUS_OK := by
  unfold fsnodes_get_node_for_operation at h
  split at h
  · cases h; decide
  · split at h
    · cases h; decide
    · split at h
      · cases h; decide
      · split at h
        · cases h; decide
        · split at h
          · cases h; decide
          · cases h

/-- C3: every committed (successful) mutation applied outside master
personality bumps the global metadata version by exactly one, and a failed
precondition check leaves the metadata version unchanged — shown for
`fs_apply_unlink`, non-master `fs_rename` and `fs_apply_session`. -/
theorem metaversion_after_apply
    (ts : Nat) (st : Metadata) (parent : Nat) (name : String) (inode : Nat)
    (env : FsEnv) (context : FsContext)
    (hsh : context.personality ≠ .kMaster)
    (st2 : Metadata) (parent_src : Nat) (name_src : String) (parent_dst : Nat)
    (name_dst : String) (inode2 : Nat)
    (st3 : Metadata) (sessionid : Nat) :
    (((fs_apply_unlink ts st parent name inode).1 = .STATUS_OK →
        (fs_apply_unlink ts st parent name inode).2.metaversion = st.metaversion + 1)
     ∧ ((fs_apply_unlink ts st parent name inode).1 ≠ .STATUS_OK →
        (fs_apply_unlink ts st parent name inode).2.metaversion = st.metaversion))
    ∧ (((fs_rename env context st2 parent_src name_src parent_dst name_dst inode2).1 =
          .STATUS_OK →
        (fs_rename env context st2 parent_src name_src parent_dst name_dst
          inode2).2.1.metaversion = st2.metaversion + 1)
     ∧ ((fs_rename env context st2 parent_src name_src parent_dst name_dst inode2).1 ≠
          .STATUS_OK →
        (fs_rename env context st2 parent_src name_src parent_dst name_dst
          inode2).2.1.metaversion = st2.metaversion))
    ∧ (((fs_apply_session st3 sessionid).1 = .STATUS_OK →
        (fs_apply_session st3 sessionid).2.metaversion = st3.metaversion + 1)
     ∧ ((fs_apply_session st3 sessionid).1 ≠ .STATUS_OK →
        (fs_apply_session st3 sessionid).2.metaversion = st3.metaversion)) := by
  have hmaster : context.isPersonalityMaster = false := by
    simp [FsContext.isPersonalityMaster, hsh]
  refine ⟨?_, ?_, ?_⟩
  · unfold fs_apply_unlink
    split
    · exact ⟨fun h => (nomatch h), fun _ => rfl⟩
    · split
      · exact ⟨fun h => (nomatch h), fun _ => rfl⟩
      · split
        · exact ⟨fun h => (nomatch h), fun _ => rfl⟩
        · split
          · exact ⟨fun h => (nomatch h), fun _ => rfl⟩
          · split
            · exact ⟨fun h => (nomatch h), fun _ => rfl⟩
            · exact ⟨fun _ => congrArg (fun m => m + 1) (metaversion_unlink _ _ _ _ _),
                     fun h => absurd rfl h⟩
  · unfold fs_rename
    split
    · exact ⟨fun h => absurd h (by assumption), fun _ => rfl⟩
    split
    · exact ⟨fun hok => absurd hok (get_node_error_ne_ok _ _ _ _ _ _ _ (by assumption)),
               fun _ => rfl⟩
    split
    · exact ⟨fun hok => absurd hok (get_node_error_ne_ok _ _ _ _ _ _ _ (by assumption)),
               fun _ => rfl⟩
    split
    · exact ⟨fun h => (nomatch h), fun _ => rfl⟩
    split
    · exact ⟨fun h => (nomatch h), fun _ => rfl⟩
    split
    · exact ⟨fun h => (nomatch h), fun _ => rfl⟩
    split
    · exact ⟨fun h => (nomatch h), fun _ => rfl⟩
    try dsimp only
    split
    · exact ⟨fun h => (nomatch h), fun _ => rfl⟩
    try dsimp only
    split
    · exact ⟨fun h => (nomatch h), fun _ => rfl⟩
    split
    · -- the destination-entry checks failed with some literal error status
      rename_i s heq
      refine ⟨fun hok => ?_, fun _ => rfl⟩
      rw [show s = LizStatus.STATUS_OK from hok] at heq
      repeat' split at heq
      all_goals simp at heq
    · -- destination checks passed; the move itself is performed
      rename_i deChild dInodes dSize heq
      split
      · exact ⟨fun h => (nomatch h), fun _ => rfl⟩
      · refine ⟨fun _ => ?_, fun h => absurd rfl h⟩
        try dsimp only
        rw [hmaster]
        simp only [Bool.false_eq_true, if_false]
        try dsimp only
        rw [metaversion_link, metaversion_remove_edge]
        cases deChild with
        | none => rfl
        | some d => rw [metaversion_unlink]
  · unfold fs_apply_session
    split
    · exact ⟨fun h => (nomatch h), fun _ => rfl⟩
    · exact ⟨fun _ => rfl, fun h => absurd rfl h⟩


/-- Concrete instantiation of the `isExceeded` characterisation: a hard size
limit of 5 with usage 5 is exceeded. -/
theorem quota_isExceeded_iff_witness :
    QuotaDatabase.isExceeded { uidData := [(1, { bytesHardLimit := 5, bytes := 5 })] }
      .kHard .kSize 1 2 = true :=
  (quota_isExceeded_iff { uidData := [(1, { bytesHardLimit := 5, bytes := 5 })] }
      .kHard .kSize 1 2).mpr
    (Or.inl ⟨{ bytesHardLimit := 5, bytes := 5 }, by decide, by decide, by decide⟩)

/-- Concrete instantiation of the `remove`/`set` agreement and the
positive-limit property of a listed entry. -/
theorem quota_remove_eq_set_zero_witness :
    QuotaDatabase.remove { uidData := [(1, { inodesSoftLimit := 3, inodes := 2 })] }
        .kSoft .kInodes .kUser 1 =
      QuotaDatabase.set { uidData := [(1, { inodesSoftLimit := 3, inodes := 2 })] }
        .kSoft .kInodes .kUser 1 0
    ∧ 0 < ({ entryKey := ⟨⟨.kUser, 1⟩, .kSoft, .kInodes⟩, limit := 3 } : QuotaEntry).limit := by
  refine ⟨(quota_remove_eq_set_zero { uidData := [(1, { inodesSoftLimit := 3, inodes := 2 })] }
      .kSoft .kInodes .kUser 1).1, ?_⟩
  exact ((quota_remove_eq_set_zero { uidData := [(1, { inodesSoftLimit := 3, inodes := 2 })] }
      .kSoft .kInodes .kUser 1).2.2.1 _ (by decide)).1

/-- Concrete instantiation of the acquire semantics: re-acquiring session 5 on
inode 4 fails with EINVAL, acquiring fresh session 6 succeeds. -/
theorem fs_acquire_spec_witness :
    fs_acquire { personality := .kMaster }
      { nodes := [(4, { id := 4, type := .kFile, sessionid := [5] })] } 4 5 =
      (.ERROR_EINVAL, { nodes := [(4, { id := 4, type := .kFile, sessionid := [5] })] })
    ∧ (fs_acquire { personality := .kMaster }
        { nodes := [(4, { id := 4, type := .kFile, sessionid := [5] })] } 4 6).1 =
        .STATUS_OK := by
  have h := fs_acquire_spec { personality := .kMaster }
    { nodes := [(4, { id := 4, type := .kFile, sessionid := [5] })] } 4 5
    { id := 4, type := .kFile, sessionid := [5] } (by decide) (by decide)
  have h2 := fs_acquire_spec { personality := .kMaster }
    { nodes := [(4, { id := 4, type := .kFile, sessionid := [5] })] } 4 6
    { id := 4, type := .kFile, sessionid := [5] } (by decide) (by decide)
  exact ⟨h.1 (by decide), (h2.2 (by decide)).1⟩

/-- Concrete instantiation of the version-monotonicity theorem on the SESSION
apply handler: a matching session id bumps the version by one, a mismatching
one leaves it unchanged. -/
theorem metaversion_after_apply_witness :
    (fs_apply_session { nextsessionid := 5 } 5).2.metaversion =
      ({ nextsessionid := 5 } : Metadata).metaversion + 1
    ∧ (fs_apply_session { nextsessionid := 5 } 6).2.metaversion =
      ({ nextsessionid := 5 } : Metadata).metaversion := by
  have h := metaversion_after_apply 0 {} 0 "" 0 trivialEnv { personality := .kShadow }
    (by decide) {} 0 "" 0 "" 0 { nextsessionid := 5 } 5
  have h2 := metaversion_after_apply 0 {} 0 "" 0 trivialEnv { personality := .kShadow }
    (by decide) {} 0 "" 0 "" 0 { nextsessionid := 5 } 6
  exact ⟨h.2.2.1 (by decide), h2.2.2.2 (by decide)⟩


/-! Mutation helpers commute with metaversion updates. -/

theorem setNode_metaversion_comm (st : Metadata) (v id : Nat) (n : FSNode) :
    Metadata.setNode { st with metaversion := v } id n =
      { st.setNode id n with metaversion := v } := rfl

theorem eraseNode_metaversion_comm (st : Metadata) (v id : Nat) :
    Metadata.eraseNode { st with metaversion := v } id =
      { st.eraseNode id with metaversion := v } := rfl

theorem remove_edge_metaversion_comm (ts v w c : Nat) (n : String) (st : Metadata) :
    fsnodes_remove_edge ts { st with metaversion := v } w n c =
      { fsnodes_remove_edge ts st w n c with metaversion := v } := by
  unfold fsnodes_remove_edge
  simp only [id_to_node_metaversion]
  rcases h1 : fsnodes_id_to_node st w with _ | wd
  all_goals simp only [h1]
  · rcases h2 : fsnodes_id_to_node st c with _ | cc
    all_goals simp only [id_to_node_metaversion, h2]
    rfl
  · rw [setNode_metaversion_comm]
    simp only [id_to_node_metaversion]
    rcases h2 : fsnodes_id_to_node
        (st.setNode w { wd with entries := wd.entries.filter (fun e => e.1 != n),
                                mtime := ts, ctime := ts }) c with _ | cc
    all_goals simp only [h2]
    rfl

theorem unlink_metaversion_comm (ts v w c : Nat) (n : String) (st : Metadata) :
    fsnodes_unlink ts { st with metaversion := v } w n c =
      { fsnodes_unlink ts st w n c with metaversion := v } := by
  unfold fsnodes_unlink fsnodes_purge
  rw [remove_edge_metaversion_comm]
  simp only [id_to_node_metaversion]
  rcases h : fsnodes_id_to_node (fsnodes_remove_edge ts st w n c) c with _ | child
  all_goals simp only [h]
  all_goals split
  · split
    · rfl
    · split
      · rfl
      · exact eraseNode_metaversion_comm _ _ _
  · rfl


theorem id_to_node_quota_update (st : Metadata) (p : FSNode) (d : Int) (id : Nat) :
    fsnodes_id_to_node (fsnodes_quota_update st p d) id = fsnodes_id_to_node st id := rfl

theorem foldl_stats_nil (X : Metadata) (nsr psr : statsrecord) {l : List Nat}
    (h : l = []) :
    l.foldl (fun s par => fsnodes_add_sub_stats s (s.nodes.length + 1) par nsr psr) X = X := by
  rw [h]
  rfl

/-- C2: the shadow `apply_` handlers perform the master's mutation and refuse
with MISMATCH when the state diverges from the result encoded in the record:
`fs_apply_unlink` mismatches when the inode found under the edge differs from
the logged id (and otherwise produces exactly the master's post-state);
a shadow `fs_writechunk` mismatches when the chunk id it produces differs from
the logged one (and otherwise installs the logged chunk id); `fs_apply_session`
mismatches when the logged session id is not the next one (and otherwise
produces exactly the master's post-state), so replay can stop at the record. -/
theorem apply_handlers_follow_master
    (ts : Nat) (st : Metadata) (parent : Nat) (name : String) (inode : Nat)
    (wd child : FSNode)
    (hwd : fsnodes_id_to_node st parent = some wd)
    (hwdty : wd.type = .kDirectory)
    (hlook : fsnodes_lookup st wd name = some child)
    (env : FsEnv) (sesflags uid gid : Nat)
    (hro : sesflags &&& SESFLAG_READONLY = 0)
    (hacc : env.fsnodes_access wd uid gid MODE_MASK_W sesflags = true)
    (hname : fsnodes_namecheck name = true)
    (hsticky : env.fsnodes_sticky_access wd child uid = true)
    (hfile : child.type = .kFile)
    (env2 : FsEnv) (context : FsContext) (st2 : Metadata)
    (inode2 indx lockid chunkid opflag lengthIn : Nat) (p : FSNode)
    (hver : env2.verify_session context = .STATUS_OK)
    (hshadow : context.personality = .kShadow)
    (hp : fsnodes_id_to_node st2 inode2 = some p)
    (htype : p.type = .kFile)
    (hidx : indx ≤ MAX_INDEX)
    (hlen : indx < p.chunks.length)
    (hpar : p.parent = [])
    (st3 : Metadata) (sessionid : Nat) :
    ((child.id ≠ inode → fs_apply_unlink ts st parent name inode = (.ERROR_MISMATCH, st))
     ∧ fs_apply_unlink ts st parent name child.id =
         fs_unlink env ts st SPECIAL_INODE_ROOT sesflags parent name uid gid)
    ∧ ((p.chunks.getD indx 0 ≠ 0 → p.chunks.getD indx 0 ≠ chunkid →
        fs_writechunk env2 context st2 inode2 indx lockid chunkid opflag lengthIn =
          ⟨.ERROR_MISMATCH, st2.setNode inode2 p, lockid, chunkid, opflag, lengthIn⟩)
     ∧ (p.chunks.getD indx 0 = chunkid → chunkid ≠ 0 →
        (fs_writechunk env2 context st2 inode2 indx lockid chunkid opflag lengthIn).status =
          .STATUS_OK
        ∧ (fs_writechunk env2 context st2 inode2 indx lockid chunkid opflag
            lengthIn).chunkid = chunkid
        ∧ ∃ q, fsnodes_id_to_node
            (fs_writechunk env2 context st2 inode2 indx lockid chunkid opflag
              lengthIn).st inode2 = some q
          ∧ q.chunks = p.chunks.set indx chunkid))
    ∧ ((sessionid ≠ st3.nextsessionid →
        fs_apply_session st3 sessionid = (.ERROR_MISMATCH, st3))
     ∧ fs_apply_session st3 st3.nextsessionid = (.STATUS_OK, (fs_newsessionid st3).2)) := by
  have hm : context.isPersonalityMaster = false := by
    simp [FsContext.isPersonalityMaster, hshadow]
  have hs : context.isPersonalityShadow = true := by
    simp [FsContext.isPersonalityShadow, hshadow]
  refine ⟨⟨?_, ?_⟩, ⟨?_, ?_⟩, ⟨?_, ?_⟩⟩
  · -- UNLINK mismatch
    intro hdiff
    unfold fs_apply_unlink
    rw [hwd]
    try dsimp only
    rw [if_neg (by simp [hwdty]), hlook]
    try dsimp only
    rw [if_pos hdiff]
  · -- UNLINK agreement with the master operation
    rw [fs_unlink_success env ts st sesflags parent name uid gid wd child
      hro hwd hwdty hacc hname hlook hsticky hfile]
    unfold fs_apply_unlink
    rw [hwd]
    try dsimp only
    rw [if_neg (by simp [hwdty]), hlook]
    try dsimp only
    rw [if_neg (by simp), if_neg (by simp [hfile])]
    try dsimp only
    rw [show (fs_changelog st) = { st with metaversion := st.metaversion + 1 } from rfl]
    rw [unlink_metaversion_comm ts (st.metaversion + 1) parent child.id name st]
    rw [metaversion_unlink ts st parent name child.id]
  · -- WRITE mismatch on a shadow
    intro hoch hne
    unfold fs_writechunk
    rw [if_neg (by simp [hver])]
    rw [show fsnodes_get_node_for_operation env2 context st2 .kFile MODE_MASK_EMPTY inode2 =
        Except.ok p from by
      unfold fsnodes_get_node_for_operation
      rw [hp]
      try dsimp only
      rw [if_neg (by simp), if_neg (by simp), if_neg (by simp [htype]),
        if_neg (by simp [ MODE_MASK_EMPTY])]]
    try dsimp only
    rw [if_neg (by omega)]
    rw [if_neg (by omega)]
    try dsimp only
    rw [hm]
    simp only [Bool.false_eq_true, if_false]
    try dsimp only
    unfold chunk_apply_modification
    rw [if_neg hoch]
    try dsimp only
    rw [if_neg (by simp)]
    rw [if_pos (And.intro hs hne)]
    rfl
  · -- WRITE agreement on a shadow
    intro heq hnz
    unfold fs_writechunk
    rw [if_neg (by simp [hver])]
    rw [show fsnodes_get_node_for_operation env2 context st2 .kFile MODE_MASK_EMPTY inode2 =
        Except.ok p from by
      unfold fsnodes_get_node_for_operation
      rw [hp]
      dsimp only
      rw [if_neg (by simp), if_neg (by simp), if_neg (by simp [htype]),
        if_neg (by simp [ MODE_MASK_EMPTY])]]
    try dsimp only
    rw [if_neg (by omega)]
    rw [if_neg (by omega)]
    try dsimp only
    rw [hm]
    simp only [Bool.false_eq_true, if_false]
    try dsimp only
    unfold chunk_apply_modification
    rw [if_neg (show ¬p.chunks.getD indx 0 = 0 from by rw [heq]; exact hnz)]
    try dsimp only
    rw [if_neg (by simp)]
    rw [if_neg (show ¬(context.isPersonalityShadow = true ∧ p.chunks.getD indx 0 ≠ chunkid)
      from fun hc => hc.2 heq)]
    try dsimp only
    rw [foldl_stats_nil _ _ _ hpar]
    simp only [id_to_node_metaversion, id_to_node_quota_update]
    rw [id_to_node_setNode_self (id_to_node_setNode_self hp p) _]
    try dsimp only
    unfold fsnodes_update_checksum
    split
    · refine ⟨trivial, heq, ?_⟩
      refine ⟨_, id_to_node_setNode_self
        (id_to_node_setNode_self (id_to_node_setNode_self hp p) _) _, ?_⟩
      dsimp only
      rw [heq]
    · refine ⟨trivial, heq, ?_⟩
      refine ⟨_, id_to_node_setNode_self (id_to_node_setNode_self hp p) _, ?_⟩
      dsimp only
      rw [heq]
  · -- SESSION mismatch
    intro hdiff
    unfold fs_apply_session
    rw [if_pos hdiff]
  · -- SESSION agreement with the master operation
    unfold fs_apply_session
    rw [if_neg (by simp)]
    rfl


/-- Concrete instantiation of the apply-handler theorem: an UNLINK record with
a wrong logged inode id, a shadow WRITE whose produced chunk id differs from
the logged one, and a SESSION record with a wrong session id all yield
MISMATCH. -/
theorem apply_handlers_follow_master_witness :
    fs_apply_unlink 5
      { nodes := [(1, { id := 1, type := .kDirectory, entries := [("f", 2)] }),
                  (2, { id := 2, type := .kFile, parent := [1], sessionid := [] })] }
      1 "f" 99 =
      (.ERROR_MISMATCH,
        { nodes := [(1, { id := 1, type := .kDirectory, entries := [("f", 2)] }),
                    (2, { id := 2, type := .kFile, parent := [1], sessionid := [] })] })
    ∧ (fs_writechunk trivialEnv { personality := .kShadow }
        { nodes := [(5, { id := 5, type := .kFile, chunks := [9] })] } 5 0 11 7 0 0).status =
        .ERROR_MISMATCH
    ∧ fs_apply_session { nextsessionid := 4 } 6 =
        (.ERROR_MISMATCH, { nextsessionid := 4 }) := by
  have h := apply_handlers_follow_master 5
    { nodes := [(1, { id := 1, type := .kDirectory, entries := [("f", 2)] }),
                (2, { id := 2, type := .kFile, parent := [1], sessionid := [] })] }
    1 "f" 99
    { id := 1, type := .kDirectory, entries := [("f", 2)] }
    { id := 2, type := .kFile, parent := [1], sessionid := [] }
    (by decide) (by decide) (by decide)
    trivialEnv 0 0 0 (by decide) rfl (by decide) rfl (by decide)
    trivialEnv { personality := .kShadow }
    { nodes := [(5, { id := 5, type := .kFile, chunks := [9] })] }
    5 0 11 7 0 0
    { id := 5, type := .kFile, chunks := [9] }
    rfl (by decide) (by decide) (by decide) (by decide) (by decide) (by decide)
    { nextsessionid := 4 } 6
  refine ⟨h.1.1 (by decide), ?_, h.2.2.1 (by decide)⟩
  rw [h.2.1.1 (by decide) (by decide)]


/-- C8: renaming a directory to a destination whose parent is that directory
itself or one of its descendants fails with EINVAL before any mutation: the
state is returned unchanged, so no edge is detached or attached.  The
ancestor test counts the directory itself (second conjunct). -/
theorem rename_cycle_einval (env : FsEnv) (context : FsContext) (st : Metadata)
    (parent_src : Nat) (name_src : String) (parent_dst : Nat) (name_dst : String)
    (inode : Nat) (dwd swd se_child : FSNode)
    (hver : env.verify_session context = .STATUS_OK)
    (hget1 : fsnodes_get_node_for_operation env context st .kDirectory MODE_MASK_W
      parent_dst = Except.ok dwd)
    (hget2 : fsnodes_get_node_for_operation env context st .kDirectory MODE_MASK_W
      parent_src = Except.ok swd)
    (hns : fsnodes_namecheck name_src = true)
    (hlook : fsnodes_lookup st swd name_src = some se_child)
    (hstick : env.fsnodes_sticky_access swd se_child context.uid = true)
    (hmaster : context.personality = .kMaster)
    (hdir : se_child.type = .kDirectory)
    (hanc : fsnodes_isancestor st se_child dwd = true) :
    fs_rename env context st parent_src name_src parent_dst name_dst inode =
      (.ERROR_EINVAL, st, se_child.id)
    ∧ ∀ x : FSNode, fsnodes_isancestor st x x = true := by
  constructor
  · unfold fs_rename
    rw [if_neg (by simp [hver])]
    rw [hget1]
    try dsimp only
    rw [hget2]
    try dsimp only
    rw [if_neg (by simp [hns])]
    rw [hlook]
    dsimp only
    rw [if_neg (show ¬(context.canCheckPermissions = true ∧
        ¬env.fsnodes_sticky_access swd se_child context.uid = true) from
      fun hc => hc.2 hstick)]
    rw [if_neg (show ¬(context.personality ≠ Personality.kMaster ∧ se_child.id ≠ inode) from
      fun hc => hc.1 hmaster)]
    try dsimp only
    rw [if_pos (And.intro hdir hanc)]
  · intro x
    unfold fsnodes_isancestor isancestorFuel
    simp

/-- Concrete instantiation: renaming `/d` into itself (`/d/x`) on a two-node
tree fails with EINVAL and leaves the tree unchanged. -/
theorem rename_cycle_einval_witness :
    fs_rename trivialEnv { personality := .kMaster }
      { nodes := [(1, { id := 1, type := .kDirectory, entries := [("d", 2)] }),
                  (2, { id := 2, type := .kDirectory, parent := [1] })] }
      1 "d" 2 "x" 0 =
      (.ERROR_EINVAL,
        { nodes := [(1, { id := 1, type := .kDirectory, entries := [("d", 2)] }),
                    (2, { id := 2, type := .kDirectory, parent := [1] })] }, 2) :=
  (rename_cycle_einval trivialEnv { personality := .kMaster }
    { nodes := [(1, { id := 1, type := .kDirectory, entries := [("d", 2)] }),
                (2, { id := 2, type := .kDirectory, parent := [1] })] }
    1 "d" 2 "x" 0
    { id := 2, type := .kDirectory, parent := [1] }
    { id := 1, type := .kDirectory, entries := [("d", 2)] }
    { id := 2, type := .kDirectory, parent := [1] }
    rfl rfl rfl (by decide) rfl rfl rfl (by decide) rfl).1


/-! Arithmetic of the `chunks` vector growth. -/

theorem and_mask64_eq (x : Nat) (hx : x < 2 ^ 32) :
    x &&& 0xFFFFFFC0 = (x >>> 6) <<< 6 := by
  have hm : (0xFFFFFFC0 : Nat) = (2 ^ 26 - 1) <<< 6 := by
    rw [Nat.shiftLeft_eq]
    norm_num
  apply Nat.eq_of_testBit_eq
  intro i
  rw [Nat.testBit_and, hm, Nat.testBit_shiftLeft, Nat.testBit_shiftLeft,
    Nat.testBit_shiftRight, Nat.testBit_two_pow_sub_one]
  by_cases h6 : 6 ≤ i
  · by_cases h32 : i < 32
    · have h26 : i - 6 < 26 := by omega
      have hi : 6 + (i - 6) = i := by omega
      simp [h6, h26, hi]
    · have hxf : x.testBit i = false :=
        Nat.testBit_lt_two_pow
          (lt_of_lt_of_le hx (Nat.pow_le_pow_right (by norm_num) (by omega)))
      have h26 : ¬(i - 6 < 26) := by omega
      simp [h6, h26, hxf]
  · simp [h6]

theorem writechunkNewSize_gt (indx : Nat) (h : indx ≤ MAX_INDEX) :
    indx < writechunkNewSize indx := by
  unfold writechunkNewSize
  by_cases h8 : indx < 8
  · simp [h8]
  · rw [if_neg h8]
    by_cases h64 : indx < 64
    · rw [if_pos h64]
      have hsmall : ∀ i < 64, i < (i &&& 0xFFFFFFF8) + 8 := by decide
      exact hsmall indx h64
    · rw [if_neg h64]
      have hx : indx < 2 ^ 32 := by
        have hM : MAX_INDEX < 2 ^ 32 := by norm_num [ MAX_INDEX]
        omega
      rw [and_mask64_eq indx hx, Nat.shiftRight_eq_div_pow, Nat.shiftLeft_eq]
      have := Nat.div_add_mod indx (2 ^ 6)
      have hmod : indx % 2 ^ 6 < 2 ^ 6 := Nat.mod_lt _ (by norm_num)
      omega

theorem getD_append_replicate_zero (l : List Nat) (k indx : Nat) (h : l.length ≤ indx) :
    (l ++ List.replicate k 0).getD indx 0 = 0 := by
  rw [List.getD_eq_getElem?_getD, List.getElem?_append_right h]
  rcases lt_or_ge (indx - l.length) k with hk | hk
  · rw [List.getElem?_replicate, if_pos hk]
    rfl
  · rw [List.getElem?_replicate, if_neg (by omega)]
    rfl

theorem id_to_node_nextchunkid (st : Metadata) (v id : Nat) :
    fsnodes_id_to_node { st with nextchunkid := v } id = fsnodes_id_to_node st id := rfl

theorem foldl_stats_one (X : Metadata) (nsr psr : statsrecord) {l : List Nat} {pp : Nat}
    (h : l = [pp]) :
    l.foldl (fun s par => fsnodes_add_sub_stats s (s.nodes.length + 1) par nsr psr) X =
      fsnodes_add_sub_stats X (X.nodes.length + 1) pp nsr psr := by
  rw [h]
  rfl


theorem add_sub_stats_root (st : Metadata) (fuel pp : Nat) (ppNode : FSNode)
    (nsr psr : statsrecord) (h : fsnodes_id_to_node st pp = some ppNode)
    (hroot : ppNode.parent = []) :
    fsnodes_add_sub_stats st (fuel + 1) pp nsr psr =
      st.setNode pp { ppNode with stats := ppNode.stats.addSub nsr psr } := by
  unfold fsnodes_add_sub_stats
  rw [h]
  dsimp only
  rw [hroot]

/-- C7: master-side `fs_writechunk`.  An index above the maximum chunk index
fails with INDEXTOOBIG and leaves the state untouched; an exceeded size quota
fails with QUOTA and leaves the metadata version untouched; on success with a
chunks vector shorter than the index, the vector is grown to a length strictly
greater than the index, the freshly allocated chunk id is returned and stored
at the index, the parent directory's stats receive the `new − old` delta, and
the owners' size-quota usage receives the size difference. -/
theorem fs_writechunk_master_spec (env : FsEnv) (context : FsContext) (st : Metadata)
    (inode indx lockid chunkid opflag lengthIn : Nat) (p : FSNode)
    (hmaster : context.personality = .kMaster)
    (hver : env.verify_session context = .STATUS_OK)
    (hp : fsnodes_id_to_node st inode = some p)
    (hget : fsnodes_get_node_for_operation env context st .kFile MODE_MASK_EMPTY inode
      = Except.ok p) :
    (indx > MAX_INDEX →
      fs_writechunk env context st inode indx lockid chunkid opflag lengthIn =
        ⟨.ERROR_INDEXTOOBIG, st, lockid, chunkid, opflag, lengthIn⟩)
    ∧ (indx ≤ MAX_INDEX → env.fsnodes_quota_exceeded p = true →
        (fs_writechunk env context st inode indx lockid chunkid opflag lengthIn).status
          = .ERROR_QUOTA
        ∧ (fs_writechunk env context st inode indx lockid chunkid opflag
            lengthIn).st.metaversion = st.metaversion)
    ∧ (∀ pp ppNode,
        indx ≤ MAX_INDEX →
        env.fsnodes_quota_exceeded p = false →
        p.chunks.length ≤ indx →
        p.parent = [pp] → pp ≠ inode →
        fsnodes_id_to_node st pp = some ppNode → ppNode.parent = [] →
        (fs_writechunk env context st inode indx lockid chunkid opflag lengthIn).status
          = .STATUS_OK
        ∧ (fs_writechunk env context st inode indx lockid chunkid opflag
            lengthIn).chunkid = st.nextchunkid
        ∧ (∃ q, fsnodes_id_to_node
              (fs_writechunk env context st inode indx lockid chunkid opflag lengthIn).st
              inode = some q
            ∧ indx < q.chunks.length
            ∧ q.chunks = (p.chunks ++ List.replicate
                (writechunkNewSize indx - p.chunks.length) 0).set indx st.nextchunkid)
        ∧ fsnodes_id_to_node
            (fs_writechunk env context st inode indx lockid chunkid opflag lengthIn).st
            pp = some { ppNode with
              stats := ppNode.stats.addSub
                  (env.fsnodes_get_stats { p with
                    chunks := (p.chunks ++ List.replicate
                        (writechunkNewSize indx - p.chunks.length) 0).set
                        indx st.nextchunkid })
                  (env.fsnodes_get_stats p) }
        ∧ (fs_writechunk env context st inode indx lockid chunkid opflag
            lengthIn).st.quota_database =
            st.quota_database.changeUsage .kSize p.uid p.gid
              (((env.fsnodes_get_stats { p with
                  chunks := (p.chunks ++ List.replicate
                      (writechunkNewSize indx - p.chunks.length) 0).set
                      indx st.nextchunkid }).size : Int)
               - ((env.fsnodes_get_stats p).size : Int))) := by
  have hmb : context.isPersonalityMaster = true := by
    simp [FsContext.isPersonalityMaster, hmaster]
  have hsb : context.isPersonalityShadow = false := by
    simp [FsContext.isPersonalityShadow, hmaster]
  refine ⟨?_, ?_, ?_⟩
  · intro hbig
    unfold fs_writechunk
    rw [if_neg (show ¬env.verify_session context ≠ .STATUS_OK from by simp [hver]), hget]
    dsimp only
    rw [if_pos hbig]
  · intro hle hq
    unfold fs_writechunk
    rw [if_neg (show ¬env.verify_session context ≠ .STATUS_OK from by simp [hver]), hget]
    dsimp only
    rw [if_neg (show ¬indx > MAX_INDEX from by omega)]
    by_cases hres : indx ≥ p.chunks.length
    · rw [if_pos hres, if_pos (And.intro hmb hq)]
      exact ⟨rfl, rfl⟩
    · rw [if_neg hres]
      dsimp only
      rw [hmb]
      simp only [if_true]
      unfold chunk_multi_modify
      rw [if_pos hq]
      dsimp only
      rw [if_pos (show LizStatus.ERROR_QUOTA ≠ .STATUS_OK from by decide)]
      exact ⟨rfl, rfl⟩
  · intro pp ppNode hle hq hres hpar hppne hpp hpproot
    unfold fs_writechunk
    rw [if_neg (show ¬env.verify_session context ≠ .STATUS_OK from by simp [hver]), hget]
    dsimp only
    rw [if_neg (show ¬indx > MAX_INDEX from by omega)]
    rw [if_pos (show indx ≥ p.chunks.length from hres)]
    rw [if_neg (show ¬(context.isPersonalityMaster ∧ env.fsnodes_quota_exceeded p) from
      fun hc => by rw [hq] at hc; exact Bool.noConfusion hc.2)]
    dsimp only
    rw [hmb]
    simp only [if_true]
    unfold chunk_multi_modify
    rw [if_neg (show ¬env.fsnodes_quota_exceeded p = true from by simp [hq])]
    rw [if_pos (getD_append_replicate_zero p.chunks _ indx hres)]
    dsimp only
    rw [if_neg (show ¬LizStatus.STATUS_OK ≠ .STATUS_OK from by simp)]
    rw [if_neg (show ¬(context.isPersonalityShadow = true ∧
      (st.setNode inode { p with
        chunks := p.chunks ++ List.replicate
            (writechunkNewSize indx - p.chunks.length) 0 }).nextchunkid ≠ chunkid) from
      fun hc => by rw [hsb] at hc; exact Bool.noConfusion hc.1)]
    dsimp only
    rw [show (Metadata.setNode st inode { p with
      chunks := p.chunks ++ List.replicate
          (writechunkNewSize indx - p.chunks.length) 0 }).nextchunkid = st.nextchunkid
      from rfl]
    set p1 : FSNode := { p with
      chunks := p.chunks ++ List.replicate
          (writechunkNewSize indx - p.chunks.length) 0 } with hp1
    set p2 : FSNode := { p with
      chunks := (p.chunks ++ List.replicate
          (writechunkNewSize indx - p.chunks.length) 0).set indx st.nextchunkid } with hp2
    set nsr : statsrecord := env.fsnodes_get_stats p2 with hnsr
    set psr : statsrecord := env.fsnodes_get_stats p with hpsr
    set st1 : Metadata := st.setNode inode p1 with hst1
    set st2 : Metadata := ({ st1 with nextchunkid := st.nextchunkid + 1 } : Metadata).setNode
      inode p2 with hst2
    have hpp1 : fsnodes_id_to_node st1 pp = some ppNode := by
      rw [hst1]
      exact (id_to_node_setNode_other inode p1 pp hppne).trans hpp
    have hpp2x : fsnodes_id_to_node st2 pp = some ppNode := by
      rw [hst2]
      exact (id_to_node_setNode_other inode p2 pp hppne).trans hpp1
    have hin2 : fsnodes_id_to_node st2 inode = some p2 := by
      rw [hst2]
      exact id_to_node_setNode_self
        (show fsnodes_id_to_node { st1 with nextchunkid := st.nextchunkid + 1 } inode
            = some p1 from by rw [hst1]; exact id_to_node_setNode_self hp p1) p2
    rw [foldl_stats_one st2 nsr psr hpar]
    rw [add_sub_stats_root st2 _ pp ppNode nsr psr hpp2x hpproot]
    set st3 : Metadata := st2.setNode pp { ppNode with
      stats := ppNode.stats.addSub nsr psr } with hst3
    have hppfin : fsnodes_id_to_node st3 pp
        = some { ppNode with stats := ppNode.stats.addSub nsr psr } := by
      rw [hst3]
      exact id_to_node_setNode_self hpp2x _
    have hin3 : fsnodes_id_to_node st3 inode = some p2 := by
      rw [hst3]
      exact (id_to_node_setNode_other pp _ inode (fun h => hppne h.symm)).trans hin2
    have hgrow : indx < writechunkNewSize indx := writechunkNewSize_gt indx hle
    have hlen : indx < p2.chunks.length := by
      rw [hp2]
      dsimp only
      rw [List.length_set, List.length_append, List.length_replicate]
      omega
    have hchunks : p2.chunks = (p.chunks ++ List.replicate
        (writechunkNewSize indx - p.chunks.length) 0).set indx st.nextchunkid := by
      rw [hp2]
    simp only [id_to_node_changelog, id_to_node_quota_update]
    rw [hin3]
    dsimp only
    split
    · refine ⟨by trivial, by trivial,
        ⟨{ p2 with mtime := context.ts, ctime := context.ts }, ?_, hlen, hchunks⟩, ?_, ?_⟩
      · exact id_to_node_setNode_self hin3 _
      · exact (id_to_node_setNode_other inode _ pp hppne).trans hppfin
      · rfl
    · exact ⟨by trivial, by trivial, ⟨p2, hin3, hlen, hchunks⟩, hppfin, rfl⟩


theorem fs_writechunk_master_spec_witness :
    (fs_writechunk trivialEnv { personality := .kMaster }
      { nodes := [(1, { id := 1, type := .kDirectory }),
                  (2, { id := 2, type := .kFile, parent := [1] })], nextchunkid := 5 }
      2 0 0 0 0 0).status = .STATUS_OK
    ∧ (fs_writechunk trivialEnv { personality := .kMaster }
      { nodes := [(1, { id := 1, type := .kDirectory }),
                  (2, { id := 2, type := .kFile, parent := [1] })], nextchunkid := 5 }
      2 0 0 0 0 0).chunkid = 5 := by
  have h := (fs_writechunk_master_spec trivialEnv { personality := .kMaster }
    { nodes := [(1, { id := 1, type := .kDirectory }),
                (2, { id := 2, type := .kFile, parent := [1] })], nextchunkid := 5 }
    2 0 0 0 0 0 { id := 2, type := .kFile, parent := [1] }
    rfl rfl rfl rfl).2.2 1 { id := 1, type := .kDirectory }
    (by decide) rfl (by decide) rfl (by decide) rfl rfl
  exact ⟨h.1, h.2.1⟩


/-! Chunk writer read-source selection: support lemmas. -/

theorem loop_first_immediate (b : Nat) (l : List ChunkPartType) :
    ∀ acc ct, l.find? (isImmediate b) = some ct →
      readBlockSourceLoop b l acc = some ct := by
  induction l with
  | nil => intro acc ct h; exact absurd h (by simp)
  | cons a rest ih =>
    intro acc ct h
    rw [List.find?_cons] at h
    cases hi : isImmediate b a with
    | true =>
      rw [hi] at h
      dsimp only at h
      cases h
      match a, hi with
      | .standard, _ => rfl
      | .xorData lv part, hi =>
        have hnat : b % lv + 1 = part := by
          have hb : (b % lv + 1 == part) = true := hi
          exact beq_iff_eq.mp hb
        unfold readBlockSourceLoop
        dsimp only
        rw [if_pos hnat]
    | false =>
      rw [hi] at h
      dsimp only at h
      match a, hi with
      | .xorParity lv, _ =>
        unfold readBlockSourceLoop
        exact ih _ ct h
      | .xorData lv part, hi =>
        have hnat : ¬ b % lv + 1 = part := by
          have hb : (b % lv + 1 == part) = false := hi
          exact fun hc => by rw [hc] at hb; simp at hb
        unfold readBlockSourceLoop
        dsimp only
        rw [if_neg hnat]
        exact ih _ ct h

theorem minParity_assoc (a lv : Option Nat) (r : Option Nat) :
    minParity (minParity a lv) r = minParity a (minParity lv r) := by
  cases a with
  | none => rfl
  | some av =>
    cases lv with
    | none => rfl
    | some lvv =>
      cases r with
      | none => rfl
      | some rv =>
        unfold minParity
        simp only [Option.some.injEq]
        split_ifs <;> omega

theorem loop_no_immediate (b : Nat) (l : List ChunkPartType) :
    ∀ a : Option Nat, (∀ ct ∈ l, isImmediate b ct = false) →
      readBlockSourceLoop b l (a.map ChunkPartType.xorParity) =
        (minParity a (lowestLevel l)).map ChunkPartType.xorParity := by
  induction l with
  | nil =>
    intro a _
    cases a <;> rfl
  | cons ct rest ih =>
    intro a hl
    have hct : isImmediate b ct = false := hl ct (by simp)
    have hrest : ∀ x ∈ rest, isImmediate b x = false :=
      fun x hx => hl x (List.mem_cons_of_mem _ hx)
    match ct, hct with
    | .xorParity lv, _ =>
      unfold readBlockSourceLoop
      have hstep : (if (match a.map ChunkPartType.xorParity with
          | none => true
          | some s => s.isXorParity && decide (lv < s.getXorLevel)) = true then
            some (ChunkPartType.xorParity lv)
          else a.map ChunkPartType.xorParity) =
          (minParity a (some lv)).map ChunkPartType.xorParity := by
        cases a with
        | none => rfl
        | some av =>
          show (if (true && decide (lv < av)) = true then _ else _) = _
          by_cases hlt : lv < av
          · rw [if_pos (by simp [hlt])]
            show some (ChunkPartType.xorParity lv) =
              Option.map ChunkPartType.xorParity (some (if lv < av then lv else av))
            rw [if_pos hlt]
            rfl
          · rw [if_neg (by simp [hlt])]
            show Option.map ChunkPartType.xorParity (some av) =
              Option.map ChunkPartType.xorParity (some (if lv < av then lv else av))
            rw [if_neg hlt]
      dsimp only
      rw [hstep]
      have := ih (minParity a (some lv)) hrest
      rw [this, minParity_assoc]
      have hlow : lowestLevel (ChunkPartType.xorParity lv :: rest) =
          minParity (some lv) (lowestLevel rest) := by
        show (some (match lowestLevel rest with
              | none => lv
              | some r => if r < lv then r else lv) : Option Nat) =
            minParity (some lv) (lowestLevel rest)
        cases hr : lowestLevel rest with
        | none => rfl
        | some r => rfl
      rw [hlow]
    | .xorData lv part, hct =>
      have hnat : ¬ b % lv + 1 = part := by
        have hb : (b % lv + 1 == part) = false := hct
        exact fun hc => by rw [hc] at hb; simp at hb
      unfold readBlockSourceLoop
      dsimp only
      rw [if_neg hnat]
      rw [ih a hrest]
      have hlow : lowestLevel (ChunkPartType.xorData lv part :: rest) = lowestLevel rest :=
        rfl
      rw [hlow]

theorem lowestLevel_none (l : List ChunkPartType) :
    lowestLevel l = none → ∀ lv, ChunkPartType.xorParity lv ∈ l → False := by
  induction l with
  | nil => intro _ lv hm; simp at hm
  | cons ct rest ih =>
    intro h lv hm
    match ct with
    | .standard =>
      rcases List.mem_cons.mp hm with hc | hc
      · exact absurd hc (by simp)
      · exact ih h lv hc
    | .xorData a p =>
      rcases List.mem_cons.mp hm with hc | hc
      · exact absurd hc (by simp)
      · exact ih h lv hc
    | .xorParity a => exact (nomatch h)

theorem lowestLevel_mem (l : List ChunkPartType) :
    ∀ lv, lowestLevel l = some lv →
      ChunkPartType.xorParity lv ∈ l ∧
        ∀ lv', ChunkPartType.xorParity lv' ∈ l → lv ≤ lv' := by
  induction l with
  | nil => intro lv h; exact absurd h (by simp [lowestLevel])
  | cons ct rest ih =>
    intro lv h
    match ct with
    | .standard =>
      have h' : lowestLevel rest = some lv := h
      refine ⟨List.mem_cons_of_mem _ (ih lv h').1, fun lv' hm => ?_⟩
      rcases List.mem_cons.mp hm with hc | hc
      · exact absurd hc (by simp)
      · exact (ih lv h').2 lv' hc
    | .xorData a p =>
      have h' : lowestLevel rest = some lv := h
      refine ⟨List.mem_cons_of_mem _ (ih lv h').1, fun lv' hm => ?_⟩
      rcases List.mem_cons.mp hm with hc | hc
      · exact absurd hc (by simp)
      · exact (ih lv h').2 lv' hc
    | .xorParity a =>
      have h' : (some (match lowestLevel rest with
          | none => a
          | some r => if r < a then r else a) : Option Nat) = some lv := h
      cases hrest : lowestLevel rest with
      | none =>
        rw [hrest] at h'
        cases h'
        refine ⟨List.mem_cons_self _ _, fun lv' hm => ?_⟩
        rcases List.mem_cons.mp hm with hc | hc
        · cases hc; exact le_refl _
        · exact absurd hc (lowestLevel_none rest hrest lv')
      | some r =>
        rw [hrest] at h'
        dsimp only at h'
        rcases (ih r hrest) with ⟨hmem, hmin⟩
        by_cases hra : r < a
        · rw [if_pos hra] at h'
          cases h'
          refine ⟨List.mem_cons_of_mem _ hmem, fun lv' hm => ?_⟩
          rcases List.mem_cons.mp hm with hc | hc
          · cases hc; omega
          · exact hmin lv' hc
        · rw [if_neg hra] at h'
          cases h'
          refine ⟨List.mem_cons_self _ _, fun lv' hm => ?_⟩
          rcases List.mem_cons.mp hm with hc | hc
          · cases hc; exact le_refl _
          · exact le_trans (by omega) (hmin lv' hc)


/-- C5 counterexample: with a level-2 parity executor listed before the data
part (2,1) that naturally holds block 0, `readBlock` selects the data part,
although the claimed preference order (any standard replica, then the parity
of lowest XOR level, then the naturally-holding data part) would select the
parity. -/
theorem readBlock_source_counterexample :
    readBlockSource [ChunkPartType.xorParity 2, ChunkPartType.xorData 2 1] 0
      = some (ChunkPartType.xorData 2 1)
    ∧ readBlockSource [ChunkPartType.xorParity 2, ChunkPartType.xorData 2 1] 0
      ≠ some (ChunkPartType.xorParity 2) :=
  ⟨rfl, by decide⟩

/-- C5 (amended): the read source for a missing block is the first executor in
file-descriptor order that is a standard part or the data part naturally
holding the block; only when no such executor exists is a parity part chosen,
namely one with the lowest XOR level among the parity executors (and with no
candidate at all the read fails). -/
theorem readBlockSource_spec (executors : List ChunkPartType) (blockIndex : Nat) :
    (∀ ct, executors.find? (isImmediate blockIndex) = some ct →
      readBlockSource executors blockIndex = some ct)
    ∧ (executors.find? (isImmediate blockIndex) = none →
      readBlockSource executors blockIndex
        = (lowestLevel executors).map ChunkPartType.xorParity
      ∧ ∀ lv, lowestLevel executors = some lv →
          ChunkPartType.xorParity lv ∈ executors ∧
          ∀ lv', ChunkPartType.xorParity lv' ∈ executors → lv ≤ lv') := by
  constructor
  · intro ct h
    exact loop_first_immediate blockIndex executors none ct h
  · intro h
    refine ⟨?_, lowestLevel_mem executors⟩
    have hall : ∀ ct ∈ executors, isImmediate blockIndex ct = false := by
      intro ct hm
      cases hx : isImmediate blockIndex ct with
      | false => rfl
      | true => exact absurd hx (List.find?_eq_none.mp h ct hm)
    exact loop_no_immediate blockIndex executors none hall

theorem readBlockSource_spec_witness :
    readBlockSource [ChunkPartType.xorParity 3, ChunkPartType.xorParity 2] 5
      = some (ChunkPartType.xorParity 2) := by
  have h := ((readBlockSource_spec [ChunkPartType.xorParity 3, ChunkPartType.xorParity 2]
    5).2 rfl).1
  rw [h]
  rfl


/-! Chunk writer scheduling: support lemmas. -/

theorem collide_shape {s : Nat} {op1 op2 : Operation} {t1 f1 u1 t2 f2 u2 : Nat}
    (h1 : OpUniform s op1 t1 f1 u1) (h2 : OpUniform s op2 t2 f2 u2)
    (hc : op1.collidesWith op2 = true) : t1 = t2 ∧ f1 < u2 ∧ f2 < u1 := by
  rcases h1 with ⟨-, h1⟩
  rcases h2 with ⟨-, h2⟩
  unfold Operation.collidesWith at hc
  rw [List.any_eq_true] at hc
  rcases hc with ⟨x, hx, hxa⟩
  rw [List.any_eq_true] at hxa
  rcases hxa with ⟨y, hy, hxy⟩
  unfold positionsCollide at hxy
  simp only [Bool.and_eq_true, beq_iff_eq, decide_eq_true_eq] at hxy
  rcases hxy with ⟨⟨hbi, hft⟩, htf⟩
  rcases h1 x hx with ⟨hxf, hxt, hxs, -⟩
  rcases h2 y hy with ⟨hyf, hyt, hys, -⟩
  refine ⟨?_, ?_, ?_⟩
  · rw [← hxs, ← hys, hbi]
  · rw [← hxf, ← hyt]
    exact hft
  · rw [← hyf, ← hxt]
    exact htf

theorem collide_of_overlap {s : Nat} {op1 op2 : Operation} {t f1 u1 f2 u2 : Nat}
    (h1 : OpUniform s op1 t f1 u1) (h2 : OpUniform s op2 t f2 u2)
    (hcov : OpCovers s op2 t) (h12 : f1 < u2) (h21 : f2 < u1) :
    op1.collidesWith op2 = true := by
  rcases h1 with ⟨hne, h1⟩
  cases hjp : op1.journalPositions with
  | nil => exact absurd hjp hne
  | cons x r =>
    have hx : x ∈ op1.journalPositions := by
      rw [hjp]
      exact List.mem_cons_self _ _
    rcases h1 x hx with ⟨hxf, hxt, hxs, hxb⟩
    rcases hcov x.blockIndex hxs hxb with ⟨y, hy, hyb⟩
    rcases h2.2 y hy with ⟨hyf, hyt, -, -⟩
    unfold Operation.collidesWith
    rw [List.any_eq_true]
    refine ⟨x, hx, ?_⟩
    rw [List.any_eq_true]
    refine ⟨y, hy, ?_⟩
    unfold positionsCollide
    simp only [Bool.and_eq_true, beq_iff_eq, decide_eq_true_eq]
    exact ⟨⟨hyb.symm, by omega⟩, by omega⟩

theorem fillStripe_positions {s : Nat} {op : Operation} {front : WBlock} {rest : List WBlock}
    (hjp : op.journalPositions = front :: rest) :
    (fillStripe s op).journalPositions =
      op.journalPositions ++ (List.range s).filterMap (fun indexInStripe =>
        if op.journalPositions.any
            (fun position => position.blockIndex % s == indexInStripe) then none
        else if MFSBLOCKSINCHUNK ≤ front.blockIndex / s * s + indexInStripe then none
        else some { blockIndex := front.blockIndex / s * s + indexInStripe,
                    from_ := front.from_, to_ := front.to_ }) := by
  unfold fillStripe
  rw [hjp]

theorem fill_uniform {s : Nat} (hs : 0 < s) {op : Operation} {t f u : Nat}
    (h : OpUniform s op t f u) : OpUniform s (fillStripe s op) t f u := by
  rcases h with ⟨hne, hall⟩
  cases hjp : op.journalPositions with
  | nil => exact absurd hjp hne
  | cons front rest =>
    have hfront : front ∈ op.journalPositions := by
      rw [hjp]
      exact List.mem_cons_self _ _
    rcases hall front hfront with ⟨hff, hfu, hfs, -⟩
    constructor
    · rw [fillStripe_positions hjp, hjp]
      simp
    · intro x hx
      rw [fillStripe_positions hjp] at hx
      rcases List.mem_append.mp hx with hx | hx
      · exact hall x hx
      · rcases List.mem_filterMap.mp hx with ⟨i, hir, hfi⟩
        by_cases hpres : (op.journalPositions.any
            fun position => position.blockIndex % s == i) = true
        · rw [if_pos hpres] at hfi
          exact absurd hfi (by simp)
        · rw [if_neg hpres] at hfi
          by_cases hbig : MFSBLOCKSINCHUNK ≤ front.blockIndex / s * s + i
          · rw [if_pos hbig] at hfi
            exact absurd hfi (by simp)
          · rw [if_neg hbig] at hfi
            cases hfi
            have hi : i < s := List.mem_range.mp hir
            have harith : (front.blockIndex / s * s + i) / s = front.blockIndex / s := by
              rw [Nat.mul_comm (front.blockIndex / s) s, Nat.mul_add_div hs,
                Nat.div_eq_of_lt hi, Nat.add_zero]
            exact ⟨hff, hfu, harith.trans hfs, Nat.lt_of_not_le hbig⟩

theorem fill_covers {s : Nat} (hs : 0 < s) {op : Operation} {t f u : Nat}
    (h : OpUniform s op t f u) : OpCovers s (fillStripe s op) t := by
  rcases h with ⟨hne, hall⟩
  cases hjp : op.journalPositions with
  | nil => exact absurd hjp hne
  | cons front rest =>
    intro b hbs hbc
    have hfront : front ∈ op.journalPositions := by
      rw [hjp]
      exact List.mem_cons_self _ _
    rcases hall front hfront with ⟨-, -, hfs, -⟩
    rw [fillStripe_positions hjp]
    by_cases hpres : (op.journalPositions.any
        fun position => position.blockIndex % s == b % s) = true
    · rw [List.any_eq_true] at hpres
      rcases hpres with ⟨x, hx, hxr⟩
      have hxr' : x.blockIndex % s = b % s := beq_iff_eq.mp hxr
      rcases hall x hx with ⟨-, -, hxs, -⟩
      refine ⟨x, List.mem_append_left _ hx, ?_⟩
      calc x.blockIndex = x.blockIndex / s * s + x.blockIndex % s :=
            (Nat.div_add_mod' _ _).symm
        _ = b / s * s + b % s := by rw [hxs, hxr', hbs]
        _ = b := Nat.div_add_mod' b s
    · have hval : front.blockIndex / s * s + b % s = b := by
        rw [hfs, ← hbs]
        exact Nat.div_add_mod' b s
      refine ⟨{ blockIndex := front.blockIndex / s * s + b % s,
                from_ := front.from_, to_ := front.to_ },
        List.mem_append_right _ (List.mem_filterMap.mpr
          ⟨b % s, List.mem_range.mpr (Nat.mod_lt _ hs), ?_⟩), hval⟩
      rw [if_neg hpres,
        if_neg (show ¬ MFSBLOCKSINCHUNK ≤ front.blockIndex / s * s + b % s from by
          rw [hval]
          omega)]

theorem no_collide_fill {s : Nat} (hs : 0 < s) {op P : Operation} {t f u tP fP uP : Nat}
    (hop : OpUniform s op t f u) (hP : OpUniform s P tP fP uP) (hPcov : OpCovers s P tP)
    (hgate : op.collidesWith P = false) :
    P.collidesWith (fillStripe s op) = false ∧ (fillStripe s op).collidesWith P = false := by
  have hfu := fill_uniform hs hop
  constructor
  · cases hc : P.collidesWith (fillStripe s op) with
    | false => rfl
    | true =>
      rcases collide_shape hP hfu hc with ⟨hts, hov1, hov2⟩
      subst hts
      have := collide_of_overlap hop hP hPcov hov2 hov1
      rw [hgate] at this
      exact Bool.noConfusion this
  · cases hc : (fillStripe s op).collidesWith P with
    | false => rfl
    | true =>
      rcases collide_shape hfu hP hc with ⟨hts, hov1, hov2⟩
      subst hts
      have := collide_of_overlap hop hP hPcov hov1 hov2
      rw [hgate] at this
      exact Bool.noConfusion this


theorem startLoop_spec (s : Nat) (hs : 0 < s) (accepts : Bool) :
    ∀ (newOps pending : List Operation),
    (∀ op ∈ newOps, ∃ t f u, OpUniform s op t f u) →
    (∀ op ∈ pending, ∃ t f u, OpUniform s op t f u ∧ OpCovers s op t) →
    List.Pairwise (fun op1 op2 => op1.collidesWith op2 = false ∧
      op2.collidesWith op1 = false) pending →
    (∃ k, startLoop s accepts newOps pending =
        (newOps.drop k, pending ++ (newOps.take k).map (fillStripe s)))
    ∧ (∀ op ∈ (startLoop s accepts newOps pending).2,
        ∃ t f u, OpUniform s op t f u ∧ OpCovers s op t)
    ∧ List.Pairwise (fun op1 op2 => op1.collidesWith op2 = false ∧
        op2.collidesWith op1 = false) (startLoop s accepts newOps pending).2
    ∧ (accepts = true → ∀ ops op, newOps = ops ++ [op] → op.isFullStripe s = false →
        op ∈ (startLoop s accepts newOps pending).1) := by
  intro newOps
  induction newOps with
  | nil =>
    intro pending hnew hpend hpair
    refine ⟨⟨0, by unfold startLoop; simp⟩, hpend, hpair, ?_⟩
    intro _ ops op hco _
    exact absurd hco (by simp)
  | cons op rest ih =>
    intro pending hnew hpend hpair
    have hunf : startLoop s accepts (op :: rest) pending =
        (if (rest.isEmpty && accepts && !(op.isFullStripe s)) = true then
          (op :: rest, pending)
        else if (pending.all fun pendingOperation =>
            !(op.collidesWith pendingOperation)) = true then
          startLoop s accepts rest (pending ++ [fillStripe s op])
        else (op :: rest, pending)) := rfl
    by_cases hg1 : (rest.isEmpty && accepts && !(op.isFullStripe s)) = true
    · have hres : startLoop s accepts (op :: rest) pending = (op :: rest, pending) := by
        rw [hunf, if_pos hg1]
      refine ⟨⟨0, by rw [hres]; simp⟩, ?_, ?_, ?_⟩
      · rw [hres]
        exact hpend
      · rw [hres]
        exact hpair
      · intro _ ops op' hco _
        rw [hres]
        show op' ∈ op :: rest
        rw [hco]
        simp
    · by_cases hg2 : (pending.all fun pendingOperation => !(op.collidesWith pendingOperation))
          = true
      · have hres : startLoop s accepts (op :: rest) pending =
            startLoop s accepts rest (pending ++ [fillStripe s op]) := by
          rw [hunf, if_neg hg1, if_pos hg2]
        rcases hnew op (List.mem_cons_self _ _) with ⟨t, f, u, hopu⟩
        have hgate : ∀ P ∈ pending, op.collidesWith P = false := by
          intro P hP
          have hPa := List.all_eq_true.mp hg2 P hP
          cases hcp : op.collidesWith P with
          | false => rfl
          | true =>
            rw [hcp] at hPa
            exact absurd hPa (by simp)
        have hpend' : ∀ q ∈ pending ++ [fillStripe s op],
            ∃ t f u, OpUniform s q t f u ∧ OpCovers s q t := by
          intro q hq
          rcases List.mem_append.mp hq with hq | hq
          · exact hpend q hq
          · rcases List.mem_singleton.mp hq with rfl
            exact ⟨t, f, u, fill_uniform hs hopu, fill_covers hs hopu⟩
        have hpair' : List.Pairwise (fun op1 op2 => op1.collidesWith op2 = false ∧
            op2.collidesWith op1 = false) (pending ++ [fillStripe s op]) := by
          rw [List.pairwise_append]
          refine ⟨hpair, List.pairwise_singleton _ _, ?_⟩
          intro P hP q hq
          rcases List.mem_singleton.mp hq with rfl
          rcases hpend P hP with ⟨tP, fP, uP, hPu, hPcov⟩
          exact no_collide_fill hs hopu hPu hPcov (hgate P hP)
        rcases ih (pending ++ [fillStripe s op])
          (fun q hq => hnew q (List.mem_cons_of_mem _ hq)) hpend' hpair'
          with ⟨⟨k, hk⟩, hp2, hp3, hp4⟩
        refine ⟨⟨k + 1, ?_⟩, ?_, ?_, ?_⟩
        · rw [hres, hk, List.drop_succ_cons, List.take_succ_cons, List.map_cons]
          simp [List.append_assoc]
        · rw [hres]
          exact hp2
        · rw [hres]
          exact hp3
        · intro hacc ops op' hco hfull
          rw [hres]
          cases ops with
          | nil =>
            rw [List.nil_append] at hco
            rcases List.cons.injEq .. ▸ hco with ⟨h1, h2⟩
            exact absurd (by rw [h2, hacc, h1, hfull]; rfl) hg1
          | cons o ops' =>
            have hrest : rest = ops' ++ [op'] := by
              rw [List.cons_append] at hco
              exact (List.cons.injEq .. ▸ hco).2
            exact hp4 hacc ops' op' hrest hfull
      · have hres : startLoop s accepts (op :: rest) pending = (op :: rest, pending) := by
          rw [hunf, if_neg hg1, if_neg hg2]
        refine ⟨⟨0, by rw [hres]; simp⟩, ?_, ?_, ?_⟩
        · rw [hres]
          exact hpend
        · rw [hres]
          exact hpair
        · intro _ ops op' hco _
          rw [hres]
          show op' ∈ op :: rest
          rw [hco]
          simp


theorem WInv_init (s : Nat) : WInv s initWriter :=
  ⟨fun _ h => absurd h (by simp [ initWriter]),
   fun _ h => absurd h (by simp [ initWriter]),
   List.Pairwise.nil⟩

theorem WInv_step {s : Nat} (hs : 0 < s) {w w' : ChunkWriter} (hstep : WStep s w w')
    (hinv : WInv s w) : WInv s w' := by
  rcases hinv with ⟨hnew, hpend, hpair⟩
  cases hstep with
  | add p haccept hbound =>
    unfold addOperation
    cases hlast : w.newOperations.getLast? with
    | none =>
      refine ⟨?_, hpend, hpair⟩
      intro q hq
      rcases List.mem_singleton.mp hq with rfl
      refine ⟨p.blockIndex / s, p.from_, p.to_, ?_, ?_⟩
      · simp [Operation.expand]
      · intro x hx
        rcases List.mem_singleton.mp hx with rfl
        exact ⟨rfl, rfl, rfl, hbound⟩
    | some lastOp =>
      dsimp only
      have hlmem : lastOp ∈ w.newOperations := List.mem_of_getLast?_eq_some hlast
      by_cases hexp : lastOp.isExpandPossible p s = true
      · rw [if_pos hexp]
        refine ⟨?_, hpend, hpair⟩
        intro q hq
        rcases List.mem_append.mp hq with hq | hq
        · exact hnew q ((List.dropLast_sublist _).subset hq)
        · rcases List.mem_singleton.mp hq with rfl
          rcases hnew lastOp hlmem with ⟨t, f, u, hne, hall⟩
          refine ⟨t, f, u, ?_, ?_⟩
          · show lastOp.journalPositions ++ [p] ≠ []
            simp
          · intro x hx
            rcases List.mem_append.mp hx with hx | hx
            · exact hall x hx
            · rcases List.mem_singleton.mp hx with rfl
              cases hjp : lastOp.journalPositions with
              | nil => exact absurd hjp hne
              | cons x₀ r =>
                have hx₀ : x₀ ∈ lastOp.journalPositions := by
                  rw [hjp]
                  exact List.mem_cons_self _ _
                have he := List.all_eq_true.mp hexp x₀ hx₀
                simp only [Bool.and_eq_true, beq_iff_eq, bne_iff_ne] at he
                rcases he with ⟨⟨⟨hef, het⟩, hes⟩, -⟩
                rcases hall x₀ hx₀ with ⟨hf0, ht0, hs0, -⟩
                exact ⟨hef.trans hf0, het.trans ht0, hes.trans hs0, hbound⟩
      · rw [if_neg hexp]
        refine ⟨?_, hpend, hpair⟩
        intro q hq
        rcases List.mem_append.mp hq with hq | hq
        · exact hnew q hq
        · rcases List.mem_singleton.mp hq with rfl
          refine ⟨p.blockIndex / s, p.from_, p.to_, ?_, ?_⟩
          · simp [Operation.expand]
          · intro x hx
            rcases List.mem_singleton.mp hx with rfl
            exact ⟨rfl, rfl, rfl, hbound⟩
  | start =>
    rcases startLoop_spec s hs w.acceptsNewOperations w.newOperations w.pendingOperations
      hnew hpend hpair with ⟨⟨k, hk⟩, hp2, hp3, -⟩
    refine ⟨?_, hp2, hp3⟩
    intro q hq
    have hq1 : q ∈ (startLoop s w.acceptsNewOperations w.newOperations
        w.pendingOperations).1 := hq
    rw [hk] at hq1
    exact hnew q (List.mem_of_mem_drop hq1)
  | complete i =>
    exact ⟨hnew, fun q hq => hpend q ((List.eraseIdx_sublist _ _).subset hq),
      hpair.sublist (List.eraseIdx_sublist _ _)⟩
  | flush => exact ⟨hnew, hpend, hpair⟩
  | drop =>
    exact ⟨fun q hq => absurd hq (by simp), hpend, hpair⟩

theorem WInv_reachable {s : Nat} (hs : 0 < s) {w : ChunkWriter} (h : WReachable s w) :
    WInv s w := by
  induction h with
  | refl => exact WInv_init s
  | tail hsteps hstep ih => exact WInv_step hs hstep ih


/-- C6: in every reachable chunk-writer state the in-flight operations are
pairwise non-colliding (no two share a block index with overlapping
`[from, to)` ranges); `startNewOperations` starts operations strictly in
insertion order — a prefix of the queue is moved, stripe-filled, to the end of
the pending list and the remainder keeps its order; the resulting pending list
is again pairwise non-colliding, so an operation enters the in-flight set only
once every pending operation it collides with has completed; and while the
writer still accepts new data the final still-expandable operation is not
started. -/
theorem chunk_writer_collision_safety (s : Nat) (hs : 0 < s) (w : ChunkWriter)
    (hw : WReachable s w) :
    List.Pairwise (fun op1 op2 => op1.collidesWith op2 = false ∧
      op2.collidesWith op1 = false) w.pendingOperations
    ∧ (∃ k, (startNewOperations s w).newOperations = w.newOperations.drop k
        ∧ (startNewOperations s w).pendingOperations =
            w.pendingOperations ++ (w.newOperations.take k).map (fillStripe s))
    ∧ List.Pairwise (fun op1 op2 => op1.collidesWith op2 = false ∧
        op2.collidesWith op1 = false) (startNewOperations s w).pendingOperations
    ∧ (∀ ops op, w.newOperations = ops ++ [op] → w.acceptsNewOperations = true →
        op.isFullStripe s = false → op ∈ (startNewOperations s w).newOperations) := by
  rcases WInv_reachable hs hw with ⟨hnew, hpend, hpair⟩
  rcases startLoop_spec s hs w.acceptsNewOperations w.newOperations w.pendingOperations
    hnew hpend hpair with ⟨⟨k, hk⟩, -, hp3, hp4⟩
  refine ⟨hpair, ⟨k, ?_, ?_⟩, hp3, ?_⟩
  · show (startLoop s w.acceptsNewOperations w.newOperations w.pendingOperations).1 =
      w.newOperations.drop k
    rw [hk]
  · show (startLoop s w.acceptsNewOperations w.newOperations w.pendingOperations).2 =
      w.pendingOperations ++ (w.newOperations.take k).map (fillStripe s)
    rw [hk]
  · intro ops op hco hacc hfull
    exact hp4 hacc ops op hco hfull

theorem chunk_writer_collision_safety_witness :
    List.Pairwise (fun op1 op2 => op1.collidesWith op2 = false ∧
      op2.collidesWith op1 = false)
      (addOperation 1 initWriter ⟨0, 0, 10⟩).pendingOperations
    ∧ (∃ k, (startNewOperations 1 (addOperation 1 initWriter ⟨0, 0, 10⟩)).newOperations =
          (addOperation 1 initWriter ⟨0, 0, 10⟩).newOperations.drop k
        ∧ (startNewOperations 1 (addOperation 1 initWriter ⟨0, 0, 10⟩)).pendingOperations =
          (addOperation 1 initWriter ⟨0, 0, 10⟩).pendingOperations ++
            ((addOperation 1 initWriter ⟨0, 0, 10⟩).newOperations.take k).map
              (fillStripe 1)) := by
  have h := chunk_writer_collision_safety 1 (by decide)
    (addOperation 1 initWriter ⟨0, 0, 10⟩)
    (Relation.ReflTransGen.single (WStep.add initWriter ⟨0, 0, 10⟩ rfl (by decide)))
  exact ⟨h.1, h.2.1⟩

end LizardFS
